import Mathlib

/-!
Verification of the PeachPy output-writer core (`peachpy/writer.py`):
the four format writers (Text/assembly, ELF, Mach-O, MS-COFF), the Null
writer, the process-wide active-writer slot, and the ELF section, symbol
and relocation bookkeeping performed by `add_function`.

The writer module itself is embedded directly from the source.  The
collaborating modules (`peachpy.formats.elf.*`, `peachpy.formats.macho.*`,
`peachpy.formats.mscoff.*`, `peachpy.encoder`) are not part of the source
under verification; the small slices of their behavior that the writer
relies on (append-only sections, string-table interning, symbol-table
append returning an index, fixed-width integer encoding) are modelled
from the specification, as noted on each such definition.

Machine bytes are `Nat` values; byte strings are `List Nat`.
Python exceptions are modelled with `Except`.
-/

/-- Byte strings (Python `bytearray`) as lists of byte values. -/
abbrev Bytes := List Nat

/-- Python exceptions raised by the writer module itself.
`valueError` models the `ValueError` raised for an unknown assembly
format (the specification calls this error `ConfigurationError`);
`assertionError` models the failed `assert isinstance(function,
ABIFunction)` precondition; `keyError` models a failed `symbol_map[...]`
dictionary lookup; `attributeError` models an attribute access on
`None` (e.g. `self.rodata_section.index` when no `.rodata` was bound). -/
inductive PyError
  | valueError
  | assertionError
  | keyError
  | attributeError
  deriving DecidableEq, Repr

/-- An exception propagating out of a writer scope: either one of the
writer module's own errors or an arbitrary exception raised by the
caller's code inside the scope (identified by an opaque code). -/
inductive Exc
  | py (e : PyError)
  | other (code : Nat)
  deriving DecidableEq, Repr

/-- Byte order of the target ABI. -/
inductive Endianness
  | little
  | big
  deriving DecidableEq, Repr

/-- The slice of a target ABI the writer consults: ELF bitness (64 or
32) and byte order. -/
structure ABI where
  elf_bitness : Nat
  endianness : Endianness
  deriving DecidableEq, Repr

/-- Modelled from the spec: `peachpy.encoder.Encoder` packs fixed-width
little/big-endian integers for the target ABI. -/
structure Encoder where
  endianness : Endianness
  bitness : Nat
  deriving DecidableEq, Repr

/-- Modelled from the spec: `Encoder.uint64` encodes a value below 2^64
as exactly 8 bytes, least-significant first for little-endian targets
and most-significant first for big-endian targets. -/
def Encoder.uint64 (e : Encoder) (n : Nat) : Bytes :=
  let le : Bytes := [n % 256, n / 2 ^ 8 % 256, n / 2 ^ 16 % 256, n / 2 ^ 24 % 256,
    n / 2 ^ 32 % 256, n / 2 ^ 40 % 256, n / 2 ^ 48 % 256, n / 2 ^ 56 % 256]
  match e.endianness with
  | .little => le
  | .big => le.reverse

/-- A named constant symbol produced by encoding a function:
name, offset within the function's constant blob, and size. -/
structure EncodedConstSymbol where
  name : String
  offset : Nat
  size : Nat
  deriving DecidableEq, Repr

/-- A code relocation produced by encoding a function: offset within the
function's code bytes and the referenced constant-symbol name. -/
structure CodeRelocation where
  offset : Nat
  symbol : String
  deriving DecidableEq, Repr

/-- The result of `function.encode()`: code bytes, constant-data bytes,
named constant symbols, code relocations, and the flat byte blob
(`as_bytearray`) used by the Mach-O and MS-COFF writers. -/
structure EncodedFunction where
  code_content : Bytes
  const_content : Bytes
  const_symbols : List EncodedConstSymbol
  code_relocations : List CodeRelocation
  as_bytearray : Bytes
  deriving DecidableEq, Repr

/-- The function object handed to `add_function`: its name, whether it
is an instance of `ABIFunction` (i.e. bound to a target ABI), the result
of `encode()`, and the dialect-indexed result of `format(dialect)`. -/
structure Func where
  name : String
  is_abifunction : Bool
  encoded : EncodedFunction
  format : String → String

/-- Platform line separator (`os.linesep` on the single-platform build
pipeline). -/
def os_linesep : String := "\n"

/-- The generator version string (`peachpy.__version__`). -/
def peachpy_version : String := "0.2.0"

/-- The file system as the writer sees it: the content of the file at
`output_path`, or `none` when no file exists there.  `α` is `String`
for the Text writer and `Bytes` for the binary writers. -/
structure FS (α : Type) where
  file : Option α
  deriving DecidableEq, Repr

/-- The process-wide `active_writer` slot.  Writer objects are
identified by an opaque identity token (Python object identity). -/
abbrev ActiveSlot := Option Nat

/-- State of `AssemblyWriter` (the Text writer). -/
structure AssemblyWriterState where
  output_path : String
  assembly_format : String
  comment_pfx : String
  output_header : String
  previous_writer : ActiveSlot
  self_id : Nat

/-- `AssemblyWriter.__init__`: validates the assembly format against the
fixed set {go, nasm, masm, gas}, raising `ValueError` otherwise; maps
the format to its comment prefix; builds the header banner, optionally
naming the input path. -/
def AssemblyWriter.init (output_path : String) (assembly_format : String)
    (input_path : Option String) (self_id : Nat) :
    Except PyError AssemblyWriterState :=
  if assembly_format ∉ ["go", "nasm", "masm", "gas"] then
    .error .valueError
  else
    let pfx : String :=
      if assembly_format = "go" then "//"
      else if assembly_format = "nasm" then ";"
      else if assembly_format = "masm" then ";"
      else "#"
    let header_lines : List String :=
      match input_path with
      | some ip =>
        [pfx ++ " Generated by PeachPy " ++ peachpy_version ++ " from " ++ ip, "", ""]
      | none =>
        [pfx ++ " Generated by PeachPy " ++ peachpy_version, "", ""]
    .ok { output_path := output_path, assembly_format := assembly_format,
          comment_pfx := pfx,
          output_header := String.intercalate os_linesep header_lines,
          previous_writer := none, self_id := self_id }

/-- `AssemblyWriter.__enter__`: saves the active writer, becomes active,
opens `output_path` for writing (truncating any existing file), writes
the header and flushes. -/
def AssemblyWriterState.enter (w : AssemblyWriterState) (active : ActiveSlot)
    (_fs : FS String) : AssemblyWriterState × ActiveSlot × FS String :=
  ({ w with previous_writer := active }, some w.self_id,
   { file := some w.output_header })

/-- `AssemblyWriter.__exit__`: restores the previously active writer;
on a clean exit closes the file, on an exceptional exit unlinks the
output file and re-raises the original exception. -/
def AssemblyWriterState.exit (w : AssemblyWriterState) (exc : Option Exc)
    (_active : ActiveSlot) (fs : FS String) :
    AssemblyWriterState × ActiveSlot × FS String × Except Exc Unit :=
  let w1 := { w with previous_writer := none }
  match exc with
  | none => (w1, w.previous_writer, fs, .ok ())
  | some e => (w1, w.previous_writer, { file := none }, .error e)

/-- `AssemblyWriter.add_function`: asserts the function is an
`ABIFunction` (bound to an ABI), renders it to the configured dialect
and appends the text plus a line separator to the open file. -/
def AssemblyWriterState.add_function (w : AssemblyWriterState)
    (content : String) (f : Func) : Except PyError String :=
  if !f.is_abifunction then .error .assertionError
  else
    let function_code := f.format w.assembly_format
    .ok (content ++ function_code ++ os_linesep)

/-- Binding of an ELF symbol (`SymbolBinding` in
`peachpy.formats.elf.symbol`). -/
inductive SymbolBinding
  | Local
  | Global
  deriving DecidableEq, Repr

/-- Type of an ELF symbol (`SymbolType` in
`peachpy.formats.elf.symbol`). -/
inductive SymbolType
  | DataObject
  | Function
  deriving DecidableEq, Repr

/-- An ELF symbol record, with the fields `ELFWriter.add_function`
assigns: interned-name index, value (offset within the owning section),
size, owning-section index, binding and type. -/
structure ELFSymbol where
  name_index : Nat
  value : Nat
  content_size : Nat
  section_index : Nat
  binding : SymbolBinding
  type : SymbolType
  deriving DecidableEq, Repr

/-- Content type of an ELF section header (`SectionType`); only the
value the writer assigns is modelled. -/
inductive SectionType
  | AddendRelocations
  deriving DecidableEq, Repr

/-- The ELF section-header fields `ELFWriter.add_function` manipulates
for `.rela.text`. -/
structure SectionHeader where
  content_type : Option SectionType
  content_size : Nat
  link_index : Nat
  info : Nat
  entry_size : Nat
  deriving DecidableEq, Repr

/-- Default header for sections whose header fields the writer never
touches (`.text`, `.rodata`). -/
def SectionHeader.default : SectionHeader :=
  { content_type := none, content_size := 0, link_index := 0, info := 0,
    entry_size := 0 }

/-- Modelled from the spec: an ELF section is an append-only byte
buffer with an index assigned at bind time and header metadata. -/
structure Section where
  content : Bytes
  header : SectionHeader
  index : Nat
  deriving DecidableEq, Repr

/-- Modelled from the spec: `Section.append` appends bytes to the
section's append-only buffer. -/
def Section.append (s : Section) (b : Bytes) : Section :=
  { s with content := s.content ++ b }

/-- Modelled from the spec: the slice of `peachpy.formats.elf.image.Image`
the writer uses.  It owns a string table (append-only interned names; an
`add` never deduplicates and returns a fresh stable index, modelled as
the list position), a symbol table (`add` appends and returns the new
entry's index), the symbol table's own section index, the next section
index to assign at bind time (monotonically increasing), and the names
of the sections bound so far, in bind order. -/
structure ELFImage where
  strtab : List String
  symtab : List ELFSymbol
  symtab_index : Nat
  next_index : Nat
  bound_names : List String
  deriving DecidableEq, Repr

/-- Modelled from the spec: a fresh `Image` with empty string and symbol
tables; the symbol table's section index and the first bindable section
index are parameters of the surrounding format machinery. -/
def ELFImage.init (symtab_index : Nat) (base_index : Nat) : ELFImage :=
  { strtab := [], symtab := [], symtab_index := symtab_index,
    next_index := base_index, bound_names := [] }

/-- Modelled from the spec: `Image.bind_section` assigns the next
section index (stable, monotonically increasing, set at bind time) and
records the section name; returns the assigned index. -/
def ELFImage.bind_section (img : ELFImage) (name : String) :
    ELFImage × Nat :=
  ({ img with
      next_index := img.next_index + 1,
      bound_names := img.bound_names ++ [name] }, img.next_index)

/-- Modelled from the spec: `StringTable.add` interns a name, always
appending a fresh entry (no deduplication) and returning its stable
index. -/
def ELFImage.strtab_add (img : ELFImage) (name : String) :
    ELFImage × Nat :=
  ({ img with strtab := img.strtab ++ [name] }, img.strtab.length)

/-- Modelled from the spec: `SymbolTable.add` appends a symbol and
returns its index. -/
def ELFImage.symtab_add (img : ELFImage) (sym : ELFSymbol) :
    ELFImage × Nat :=
  ({ img with symtab := img.symtab ++ [sym] }, img.symtab.length)

/-- State of `ELFWriter`: target ABI, Image, the bound `.text` section,
and the lazily bound `.rela.text` and `.rodata` sections. -/
structure ELFWriterState where
  abi : ABI
  image : ELFImage
  text_section : Section
  text_rela_section : Option Section
  rodata_section : Option Section
  previous_writer : ActiveSlot
  self_id : Nat

/-- `ELFWriter.__init__`: creates a fresh Image and immediately binds an
empty `.text` section into it; `.rela.text` and `.rodata` start unbound. -/
def ELFWriter.init (abi : ABI) (symtab_index : Nat) (base_index : Nat)
    (self_id : Nat) : ELFWriterState :=
  let img := ELFImage.init symtab_index base_index
  let (img1, text_index) := img.bind_section ".text"
  { abi := abi, image := img1,
    text_section := { content := [], header := SectionHeader.default,
                      index := text_index },
    text_rela_section := none, rodata_section := none,
    previous_writer := none, self_id := self_id }

/-- Python dictionary lookup on an association list where the most
recent insertion is at the head (so a later insertion of the same key
shadows an earlier one, as in `dict` assignment). -/
def dictLookup (m : List (String × Nat)) (k : String) : Option Nat :=
  match m with
  | [] => none
  | (k1, v) :: rest => if k1 = k then some v else dictLookup rest k

/-- The constant-symbol loop of `ELFWriter.add_function`: for each
encoded constant symbol, intern its name, build a Local/DataObject
symbol at `function_rodata_offset + symbol.offset` in the `.rodata`
section, add it to the symbol table, and record name → symbol index in
the per-call `symbol_map` (most recent insertion first). -/
def constSymbolLoop (rodata_index : Nat) (function_rodata_offset : Nat)
    (syms : List EncodedConstSymbol) (img : ELFImage)
    (symbol_map : List (String × Nat)) : ELFImage × List (String × Nat) :=
  match syms with
  | [] => (img, symbol_map)
  | s :: rest =>
    let (img1, name_index) := img.strtab_add s.name
    let const_symbol : ELFSymbol :=
      { name_index := name_index,
        value := function_rodata_offset + s.offset,
        content_size := s.size,
        section_index := rodata_index,
        binding := .Local, type := .DataObject }
    let (img2, const_symbol_index) := img1.symtab_add const_symbol
    constSymbolLoop rodata_index function_rodata_offset rest img2
      ((s.name, const_symbol_index) :: symbol_map)

/-- The relocation loop of `ELFWriter.add_function`: for each code
relocation, resolve the symbol index through the per-call `symbol_map`
(raising `KeyError` when absent), pack
`info = (symbol_index << 32) | R_X86_64_PC32` with `R_X86_64_PC32 = 2`,
encode offset, info and addend `-4` (masked to 64 bits, i.e.
`addend & 0xFFFFFFFFFFFFFFFF`) each as `uint64`, append the raw entry to
the section content and grow the declared content size by the entry's
length. -/
def relocLoop (enc : Encoder) (symbol_map : List (String × Nat))
    (rela : Section) (relocs : List CodeRelocation) :
    Except PyError Section :=
  match relocs with
  | [] => .ok rela
  | r :: rest =>
    match dictLookup symbol_map r.symbol with
    | none => .error .keyError
    | some symbol_index =>
      let info := (symbol_index <<< 32) ||| 2
      let relocation := enc.uint64 r.offset ++ enc.uint64 info ++
        enc.uint64 (((-4 : Int) % (2 ^ 64 : Int)).toNat)
      relocLoop enc symbol_map
        { rela with
            content := rela.content ++ relocation,
            header := { rela.header with
              content_size := rela.header.content_size + relocation.length } }
        rest

/-- The `.rodata` step of `ELFWriter.add_function` (source lines
113-120): when the function carries constant data, lazily bind
`.rodata` on first use, capture `function_rodata_offset` as the
`.rodata` length before appending, and append the constant bytes.
Returns the (possibly) updated Image, the `.rodata` section, and
`function_rodata_offset`. -/
def elfRodataStep (w : ELFWriterState) (const_content : Bytes) :
    ELFImage × Option Section × Nat :=
  if const_content.isEmpty then (w.image, w.rodata_section, 0)
  else
    match w.rodata_section with
    | some ro => (w.image, some (ro.append const_content), ro.content.length)
    | none =>
      let img1 := (w.image.bind_section ".rodata").1
      let ro : Section :=
        { content := [], header := SectionHeader.default,
          index := (w.image.bind_section ".rodata").2 }
      (img1, some (ro.append const_content), 0)

/-- The constant-symbol step of `ELFWriter.add_function` (source lines
122-134): iterate over the encoded constant symbols, reading
`self.rodata_section.index` (an `AttributeError` on `None` when the
loop is entered with no `.rodata` section bound). -/
def elfConstStep (rodata1 : Option Section) (function_rodata_offset : Nat)
    (syms : List EncodedConstSymbol) (img1 : ELFImage) :
    Except PyError (ELFImage × List (String × Nat)) :=
  match syms with
  | [] => .ok (img1, [])
  | s :: rest =>
    match rodata1 with
    | none => .error .attributeError
    | some ro =>
      .ok (constSymbolLoop ro.index function_rodata_offset (s :: rest) img1 [])

/-- The relocation step of `ELFWriter.add_function` (source lines
136-157): when the function carries code relocations, lazily bind
`.rela.text` on first use (content type AddendRelocations, declared
content size 0, link = symtab section index, info = `.text` section
index, declared entry size 24 on 64-bit targets and 12 otherwise) and
run the relocation loop over the per-call symbol map. -/
def elfRelaStep (w : ELFWriterState) (img2 : ELFImage)
    (symbol_map : List (String × Nat)) (relocs : List CodeRelocation) :
    Except PyError (ELFImage × Option Section) :=
  if relocs.isEmpty then .ok (img2, w.text_rela_section)
  else
    let bindStep : ELFImage × Section :=
      match w.text_rela_section with
      | some s => (img2, s)
      | none =>
        let img3 := (img2.bind_section ".rela.text").1
        let hdr : SectionHeader :=
          { content_type := some .AddendRelocations,
            content_size := 0, link_index := img2.symtab_index,
            info := w.text_section.index,
            entry_size := if w.abi.elf_bitness = 64 then 24 else 12 }
        (img3, { content := [], header := hdr,
                 index := (img2.bind_section ".rela.text").2 })
    let enc : Encoder :=
      { endianness := w.abi.endianness, bitness := w.abi.elf_bitness }
    match relocLoop enc symbol_map bindStep.2 relocs with
    | .error e => .error e
    | .ok rela1 => .ok (bindStep.1, some rela1)

/-- `ELFWriter.add_function`.  Asserts the function is bound to an ABI;
captures `function_offset` as the current `.text` length, then appends
the code bytes; runs the `.rodata` step, the constant-symbol step and
the relocation step; finally interns the function name and adds the
Global/Function symbol with value `function_offset` and size equal to
the code length. -/
def ELFWriterState.add_function (w : ELFWriterState) (f : Func) :
    Except PyError ELFWriterState :=
  if !f.is_abifunction then .error .assertionError else
  let ef := f.encoded
  let function_offset := w.text_section.content.length
  let text1 := w.text_section.append ef.code_content
  let step := elfRodataStep w ef.const_content
  match elfConstStep step.2.1 step.2.2 ef.const_symbols step.1 with
  | .error e => .error e
  | .ok (img2, symbol_map) =>
    match elfRelaStep w img2 symbol_map ef.code_relocations with
    | .error e => .error e
    | .ok (img4, rela2) =>
      let img5 := (img4.strtab_add f.name).1
      let function_symbol : ELFSymbol :=
        { name_index := (img4.strtab_add f.name).2,
          value := function_offset,
          content_size := ef.code_content.length,
          section_index := w.text_section.index,
          binding := .Global, type := .Function }
      let img6 := (img5.symtab_add function_symbol).1
      .ok { w with
              image := img6, text_section := text1,
              rodata_section := step.2.1, text_rela_section := rela2 }

/-- A sequence of `add_function` calls on an ELF writer, stopping at the
first raised exception. -/
def ELFWriterState.addFunctions (w : ELFWriterState) :
    List Func → Except PyError ELFWriterState
  | [] => .ok w
  | f :: rest =>
    match w.add_function f with
    | .error e => .error e
    | .ok w1 => w1.addFunctions rest

/-- Modelled from the spec: `Image.as_bytearray` serializes the Image —
`.text`, then the optional `.rodata`, then the optional `.rela.text`
(file headers and tables omitted; only section payloads are modelled). -/
def ELFWriterState.as_bytearray (w : ELFWriterState) : Bytes :=
  w.text_section.content ++
  (match w.rodata_section with
   | some ro => ro.content
   | none => []) ++
  (match w.text_rela_section with
   | some rela => rela.content
   | none => [])

/-- Modelled from the spec: `symtab.bind()` finalizes the symbol table,
resolving deferred cross-references; in this model symbols already hold
resolved indices, so the table is unchanged. -/
def ELFImage.symtab_bind (img : ELFImage) : ELFImage := img

/-- `ELFWriter.__enter__`: saves the active writer, becomes active, and
opens `output_path` for unbuffered writing, truncating any existing
file. -/
def ELFWriterState.enter (w : ELFWriterState) (active : ActiveSlot)
    (_fs : FS Bytes) : ELFWriterState × ActiveSlot × FS Bytes :=
  ({ w with previous_writer := active }, some w.self_id,
   { file := some [] })

/-- `ELFWriter.__exit__`: restores the previously active writer; on a
clean exit binds the symbol table, writes the serialized Image and
closes; on an exceptional exit unlinks the output file and re-raises
the original exception. -/
def ELFWriterState.exit (w : ELFWriterState) (exc : Option Exc)
    (_active : ActiveSlot) (_fs : FS Bytes) :
    ELFWriterState × ActiveSlot × FS Bytes × Except Exc Unit :=
  let w1 := { w with previous_writer := none }
  match exc with
  | none =>
    let w2 := { w1 with image := w1.image.symtab_bind }
    (w2, w.previous_writer, { file := some w2.as_bytearray }, .ok ())
  | some e => (w1, w.previous_writer, { file := none }, .error e)

/-- A complete ELF writer scope: enter, run the body (a sequence of
`add_function` calls followed by an optional exception raised by the
caller's own code), then exit with whatever exception is in flight. -/
def ELFWriterState.runScope (w : ELFWriterState) (active : ActiveSlot)
    (fs : FS Bytes) (funcs : List Func) (inject : Option Exc) :
    ELFWriterState × ActiveSlot × FS Bytes × Except Exc Unit :=
  let (w1, a1, fs1) := w.enter active fs
  match w1.addFunctions funcs with
  | .error e => w1.exit (some (.py e)) a1 fs1
  | .ok w2 =>
    match inject with
    | some e => w2.exit (some e) a1 fs1
    | none => w2.exit none a1 fs1

/-- Description of a Mach-O symbol (`SymbolDescription`). -/
inductive MachOSymbolDescription
  | Defined
  deriving DecidableEq, Repr

/-- Type of a Mach-O symbol (`SymbolType`). -/
inductive MachOSymbolType
  | SectionRelative
  deriving DecidableEq, Repr

/-- Visibility of a Mach-O symbol (`SymbolVisibility`). -/
inductive MachOSymbolVisibility
  | External
  deriving DecidableEq, Repr

/-- A Mach-O symbol record with the fields `MachOWriter.add_function`
assigns. -/
structure MachOSymbol where
  description : MachOSymbolDescription
  type : MachOSymbolType
  visibility : MachOSymbolVisibility
  string_index : Nat
  section_index : Nat
  value : Nat
  deriving DecidableEq, Repr

/-- Modelled from the spec: the slice of
`peachpy.formats.macho.image.Image` the writer uses — a pre-existing
text section (append-only content with a fixed index), a string table
(append-only interning, fresh stable index per `add`), and the symbol
list. -/
structure MachOImage where
  text_content : Bytes
  text_index : Nat
  string_table : List String
  symbols : List MachOSymbol
  deriving DecidableEq, Repr

/-- Modelled from the spec: a fresh Mach-O Image with an empty text
section whose index is fixed by the format machinery. -/
def MachOImage.init (text_index : Nat) : MachOImage :=
  { text_content := [], text_index := text_index, string_table := [],
    symbols := [] }

/-- State of `MachOWriter`. -/
structure MachOWriterState where
  abi : ABI
  image : MachOImage
  previous_writer : ActiveSlot
  self_id : Nat

/-- `MachOWriter.__init__`: creates an Image (its text section
pre-exists; no lazy binding). -/
def MachOWriter.init (abi : ABI) (text_index : Nat) (self_id : Nat) :
    MachOWriterState :=
  { abi := abi, image := MachOImage.init text_index,
    previous_writer := none, self_id := self_id }

/-- `MachOWriter.add_function`: asserts the function is bound to an
ABI; takes the flat encoded blob; records `function_offset` as the
current text-section length; appends the blob; appends a
Defined/SectionRelative/External symbol whose interned name is the
function name prefixed with an underscore, whose section is the text
section and whose value is `function_offset`. -/
def MachOWriterState.add_function (w : MachOWriterState) (f : Func) :
    Except PyError MachOWriterState :=
  if !f.is_abifunction then .error .assertionError else
  let function_code := f.encoded.as_bytearray
  let function_offset := w.image.text_content.length
  let img1 := { w.image with
                  text_content := w.image.text_content ++ function_code }
  let string_index := img1.string_table.length
  let img2 := { img1 with
                  string_table := img1.string_table ++ ["_" ++ f.name] }
  let function_symbol : MachOSymbol :=
    { description := .Defined, type := .SectionRelative,
      visibility := .External, string_index := string_index,
      section_index := w.image.text_index, value := function_offset }
  .ok { w with image := { img2 with
                            symbols := img2.symbols ++ [function_symbol] } }

/-- A sequence of `add_function` calls on a Mach-O writer. -/
def MachOWriterState.addFunctions (w : MachOWriterState) :
    List Func → Except PyError MachOWriterState
  | [] => .ok w
  | f :: rest =>
    match w.add_function f with
    | .error e => .error e
    | .ok w1 => w1.addFunctions rest

/-- Modelled from the spec: Mach-O `Image.as_bytearray` (single-section
model; headers and tables omitted). -/
def MachOWriterState.as_bytearray (w : MachOWriterState) : Bytes :=
  w.image.text_content

/-- `MachOWriter.__enter__`. -/
def MachOWriterState.enter (w : MachOWriterState) (active : ActiveSlot)
    (_fs : FS Bytes) : MachOWriterState × ActiveSlot × FS Bytes :=
  ({ w with previous_writer := active }, some w.self_id,
   { file := some [] })

/-- `MachOWriter.__exit__`: restores the previously active writer; on a
clean exit writes the serialized Image and closes; on an exceptional
exit unlinks the output file and re-raises. -/
def MachOWriterState.exit (w : MachOWriterState) (exc : Option Exc)
    (_active : ActiveSlot) (_fs : FS Bytes) :
    MachOWriterState × ActiveSlot × FS Bytes × Except Exc Unit :=
  let w1 := { w with previous_writer := none }
  match exc with
  | none => (w1, w.previous_writer, { file := some w.as_bytearray }, .ok ())
  | some e => (w1, w.previous_writer, { file := none }, .error e)

/-- A complete Mach-O writer scope (enter, body, exit). -/
def MachOWriterState.runScope (w : MachOWriterState) (active : ActiveSlot)
    (fs : FS Bytes) (funcs : List Func) (inject : Option Exc) :
    MachOWriterState × ActiveSlot × FS Bytes × Except Exc Unit :=
  let (w1, a1, fs1) := w.enter active fs
  match w1.addFunctions funcs with
  | .error e => w1.exit (some (.py e)) a1 fs1
  | .ok w2 =>
    match inject with
    | some e => w2.exit (some e) a1 fs1
    | none => w2.exit none a1 fs1

/-- Type of an MS-COFF symbol (`SymbolType.function`). -/
inductive MSCOFFSymbolType
  | function
  deriving DecidableEq, Repr

/-- Storage class of an MS-COFF symbol (`StorageClass.external`). -/
inductive MSCOFFStorageClass
  | external
  deriving DecidableEq, Repr

/-- An MS-COFF symbol entry with the fields `MSCOFFWriter.add_function`
assigns. -/
structure MSCOFFSymbolEntry where
  value : Nat
  section_index : Nat
  symbol_type : MSCOFFSymbolType
  storage_class : MSCOFFStorageClass
  deriving DecidableEq, Repr

/-- Modelled from the spec: the slice of
`peachpy.formats.mscoff.image.Image` the writer uses — section indices
assigned on `add_section` and a symbol list paired with symbol names via
`add_symbol(symbol, name)`. -/
structure MSCOFFImage where
  next_index : Nat
  section_names : List String
  symbols : List (MSCOFFSymbolEntry × String)
  deriving DecidableEq, Repr

/-- State of `MSCOFFWriter`: the Image and the `.text` section added at
construction. -/
structure MSCOFFWriterState where
  abi : ABI
  image : MSCOFFImage
  text_content : Bytes
  text_index : Nat
  previous_writer : ActiveSlot
  self_id : Nat

/-- `MSCOFFWriter.__init__`: creates an Image and adds an empty `.text`
section to it at construction time. -/
def MSCOFFWriter.init (abi : ABI) (base_index : Nat) (self_id : Nat) :
    MSCOFFWriterState :=
  { abi := abi,
    image := { next_index := base_index + 1, section_names := [".text"],
               symbols := [] },
    text_content := [], text_index := base_index,
    previous_writer := none, self_id := self_id }

/-- `MSCOFFWriter.add_function`: asserts the function is bound to an
ABI; records the offset as the current `.text` length; writes the flat
encoded blob; adds a symbol entry with `function` type and `external`
storage class, value equal to the recorded offset, section index of the
`.text` section, under the function's name. -/
def MSCOFFWriterState.add_function (w : MSCOFFWriterState) (f : Func) :
    Except PyError MSCOFFWriterState :=
  if !f.is_abifunction then .error .assertionError else
  let function_code := f.encoded.as_bytearray
  let function_offset := w.text_content.length
  let function_symbol : MSCOFFSymbolEntry :=
    { value := function_offset, section_index := w.text_index,
      symbol_type := .function, storage_class := .external }
  .ok { w with
          text_content := w.text_content ++ function_code,
          image := { w.image with
                       symbols := w.image.symbols ++
                         [(function_symbol, f.name)] } }

/-- A sequence of `add_function` calls on an MS-COFF writer. -/
def MSCOFFWriterState.addFunctions (w : MSCOFFWriterState) :
    List Func → Except PyError MSCOFFWriterState
  | [] => .ok w
  | f :: rest =>
    match w.add_function f with
    | .error e => .error e
    | .ok w1 => w1.addFunctions rest

/-- Modelled from the spec: MS-COFF `Image.as_bytearray` (headers and
tables omitted). -/
def MSCOFFWriterState.as_bytearray (w : MSCOFFWriterState) : Bytes :=
  w.text_content

/-- `MSCOFFWriter.__enter__`. -/
def MSCOFFWriterState.enter (w : MSCOFFWriterState) (active : ActiveSlot)
    (_fs : FS Bytes) : MSCOFFWriterState × ActiveSlot × FS Bytes :=
  ({ w with previous_writer := active }, some w.self_id,
   { file := some [] })

/-- `MSCOFFWriter.__exit__`: restores the previously active writer; on
a clean exit writes the serialized Image and closes; on an exceptional
exit unlinks the output file and re-raises. -/
def MSCOFFWriterState.exit (w : MSCOFFWriterState) (exc : Option Exc)
    (_active : ActiveSlot) (_fs : FS Bytes) :
    MSCOFFWriterState × ActiveSlot × FS Bytes × Except Exc Unit :=
  let w1 := { w with previous_writer := none }
  match exc with
  | none => (w1, w.previous_writer, { file := some w.as_bytearray }, .ok ())
  | some e => (w1, w.previous_writer, { file := none }, .error e)

/-- A complete MS-COFF writer scope (enter, body, exit). -/
def MSCOFFWriterState.runScope (w : MSCOFFWriterState) (active : ActiveSlot)
    (fs : FS Bytes) (funcs : List Func) (inject : Option Exc) :
    MSCOFFWriterState × ActiveSlot × FS Bytes × Except Exc Unit :=
  let (w1, a1, fs1) := w.enter active fs
  match w1.addFunctions funcs with
  | .error e => w1.exit (some (.py e)) a1 fs1
  | .ok w2 =>
    match inject with
    | some e => w2.exit (some e) a1 fs1
    | none => w2.exit none a1 fs1

/-- State of `NullWriter`: no output state at all, only the saved
previously active writer. -/
structure NullWriterState where
  previous_writer : ActiveSlot

/-- `NullWriter.__enter__`: saves the active writer and forces the
active slot to `None` (no active writer) while the scope is open. -/
def NullWriterState.enter (w : NullWriterState) (active : ActiveSlot) :
    NullWriterState × ActiveSlot :=
  ({ w with previous_writer := active }, none)

/-- `NullWriter.__exit__`: restores the previously active writer
(whether or not an exception is in flight; `NullWriter.__exit__`
neither suppresses nor replaces it). -/
def NullWriterState.exit (w : NullWriterState) (_exc : Option Exc)
    (_active : ActiveSlot) : NullWriterState × ActiveSlot :=
  ({ w with previous_writer := none }, w.previous_writer)

/-- A sequence of `add_function` calls on a Text writer, threading the
open file's content. -/
def AssemblyWriterState.addFunctions (w : AssemblyWriterState)
    (content : String) : List Func → Except PyError String
  | [] => .ok content
  | f :: rest =>
    match w.add_function content f with
    | .error e => .error e
    | .ok content1 => w.addFunctions content1 rest

/-- A complete Text writer scope (enter, body, exit). -/
def AssemblyWriterState.runScope (w : AssemblyWriterState)
    (active : ActiveSlot) (fs : FS String) (funcs : List Func)
    (inject : Option Exc) :
    AssemblyWriterState × ActiveSlot × FS String × Except Exc Unit :=
  let (w1, a1, fs1) := w.enter active fs
  match w1.addFunctions (fs1.file.getD "") funcs with
  | .error e => w1.exit (some (.py e)) a1 fs1
  | .ok content1 =>
    match inject with
    | some e => w1.exit (some e) a1 { file := some content1 }
    | none => w1.exit none a1 { file := some content1 }

/-- A 64-bit little-endian target ABI. -/
def abi64 : ABI := { elf_bitness := 64, endianness := .little }

/-- A 32-bit little-endian target ABI. -/
def abi32 : ABI := { elf_bitness := 32, endianness := .little }

/-- Sample ABI-bound function with plain code: no constants, no
relocations. -/
def sampleF1 : Func :=
  { name := "f1", is_abifunction := true,
    encoded := { code_content := [144, 195], const_content := [],
                 const_symbols := [], code_relocations := [],
                 as_bytearray := [144, 195] },
    format := fun _ => "f1:\n  ret" }

/-- Sample ABI-bound function with one 8-byte constant referenced by
one code relocation. -/
def sampleF2 : Func :=
  { name := "f2", is_abifunction := true,
    encoded := { code_content := [72, 139, 5, 0, 0, 0, 0, 195],
                 const_content := [1, 2, 3, 4, 5, 6, 7, 8],
                 const_symbols := [{ name := "c2", offset := 0, size := 8 }],
                 code_relocations := [{ offset := 3, symbol := "c2" }],
                 as_bytearray := [72, 139, 5, 0, 0, 0, 0, 195] },
    format := fun _ => "f2:\n  ret" }

/-- Sample function not bound to an ABI. -/
def sampleUnbound : Func :=
  { name := "g", is_abifunction := false,
    encoded := { code_content := [195], const_content := [],
                 const_symbols := [], code_relocations := [],
                 as_bytearray := [195] },
    format := fun _ => "g:\n  ret" }

/-- Sample ABI-bound function whose single relocation references a
symbol name that is not among its own constant symbols. -/
def sampleDangling : Func :=
  { name := "h", is_abifunction := true,
    encoded := { code_content := [72, 139, 5, 0, 0, 0, 0, 195],
                 const_content := [9, 9, 9, 9],
                 const_symbols := [{ name := "k", offset := 0, size := 4 }],
                 code_relocations := [{ offset := 3, symbol := "c2" }],
                 as_bytearray := [72, 139, 5, 0, 0, 0, 0, 195] },
    format := fun _ => "h:\n  ret" }

/-- C6: constructing a Text (assembly) writer succeeds for exactly the
four dialects go, nasm, masm, gas, mapped to the comment prefixes //,
;, ;, # respectively, and fails with the construction-time
configuration error (Python `ValueError`) for every other dialect; the
check happens in the constructor, which performs no file I/O (the file
is only opened by the scope-entry operation). -/
theorem claim_C6 :
    (∀ op ip id fmt, (∃ w1, AssemblyWriter.init op fmt ip id = .ok w1) ↔
       fmt ∈ ["go", "nasm", "masm", "gas"]) ∧
    (∀ op ip id fmt, fmt ∉ ["go", "nasm", "masm", "gas"] →
       AssemblyWriter.init op fmt ip id = .error .valueError) ∧
    (∀ op ip id w1, AssemblyWriter.init op "go" ip id = .ok w1 →
       w1.comment_pfx = "//") ∧
    (∀ op ip id w1, AssemblyWriter.init op "nasm" ip id = .ok w1 →
       w1.comment_pfx = ";") ∧
    (∀ op ip id w1, AssemblyWriter.init op "masm" ip id = .ok w1 →
       w1.comment_pfx = ";") ∧
    (∀ op ip id w1, AssemblyWriter.init op "gas" ip id = .ok w1 →
       w1.comment_pfx = "#") := by
  refine ⟨?_, ?_, ?_, ?_, ?_, ?_⟩
  · intro op ip id fmt
    by_cases h : fmt ∈ ["go", "nasm", "masm", "gas"] <;>
      simp [AssemblyWriter.init, h]
  · intro op ip id fmt h
    simp [AssemblyWriter.init, h]
  · intro op ip id w1 h
    simp [AssemblyWriter.init] at h
    cases h
    rfl
  · intro op ip id w1 h
    simp [AssemblyWriter.init] at h
    cases h
    rfl
  · intro op ip id w1 h
    simp [AssemblyWriter.init] at h
    cases h
    rfl
  · intro op ip id w1 h
    simp [AssemblyWriter.init] at h
    cases h
    rfl

/-- C6 witness: constructing with dialect "go" succeeds with comment
prefix "//", and constructing with the unknown dialect "avx" fails with
the configuration error. -/
theorem claim_C6_witness :
    (∃ w1, AssemblyWriter.init "a.s" "go" none 0 = .ok w1) ∧
    AssemblyWriter.init "a.s" "avx" none 0 = .error .valueError := by
  constructor
  · exact (claim_C6.1 "a.s" none 0 "go").mpr (by decide)
  · exact claim_C6.2.1 "a.s" none 0 "avx" (by decide)

/-- C5: for every writer variant and every value of the active-writer
slot, entering the scope saves the current active writer and exiting —
normally or with an exception in flight — restores the saved value, so
closing writer B (or the Null writer, which holds the slot at `none`
while open) re-activates whatever writer was active before; each
non-Null writer holds the slot at itself while open. -/
theorem claim_C5 :
    (∀ (w : AssemblyWriterState) (a : ActiveSlot) (fs : FS String)
       (exc : Option Exc),
       (((w.enter a fs).1).exit exc (w.enter a fs).2.1
         (w.enter a fs).2.2).2.1 = a ∧ (w.enter a fs).2.1 = some w.self_id) ∧
    (∀ (w : ELFWriterState) (a : ActiveSlot) (fs : FS Bytes)
       (exc : Option Exc),
       (((w.enter a fs).1).exit exc (w.enter a fs).2.1
         (w.enter a fs).2.2).2.1 = a ∧ (w.enter a fs).2.1 = some w.self_id) ∧
    (∀ (w : MachOWriterState) (a : ActiveSlot) (fs : FS Bytes)
       (exc : Option Exc),
       (((w.enter a fs).1).exit exc (w.enter a fs).2.1
         (w.enter a fs).2.2).2.1 = a ∧ (w.enter a fs).2.1 = some w.self_id) ∧
    (∀ (w : MSCOFFWriterState) (a : ActiveSlot) (fs : FS Bytes)
       (exc : Option Exc),
       (((w.enter a fs).1).exit exc (w.enter a fs).2.1
         (w.enter a fs).2.2).2.1 = a ∧ (w.enter a fs).2.1 = some w.self_id) ∧
    (∀ (w : NullWriterState) (a : ActiveSlot) (exc : Option Exc),
       (((w.enter a).1).exit exc (w.enter a).2).2 = a ∧
       (w.enter a).2 = none) := by
  refine ⟨?_, ?_, ?_, ?_, ?_⟩ <;> intro w a <;>
    first
    | (intro fs exc
       cases exc <;> exact ⟨rfl, rfl⟩)
    | (intro exc
       cases exc <;> exact ⟨rfl, rfl⟩)

/-- The relocation loop can only fail with `KeyError` (a missing
`symbol_map` entry). -/
lemma relocLoop_error_eq_keyError (enc : Encoder) (m : List (String × Nat))
    (rela : Section) (rs : List CodeRelocation) (e : PyError)
    (h : relocLoop enc m rela rs = .error e) : e = .keyError := by
  induction rs generalizing rela with
  | nil => simp [relocLoop] at h
  | cons r rest ih =>
    rw [relocLoop] at h
    cases hl : dictLookup m r.symbol with
    | none =>
      rw [hl] at h
      cases h
      rfl
    | some idx =>
      rw [hl] at h
      exact ih _ h

/-- The constant-symbol step can only fail with `AttributeError`. -/
lemma elfConstStep_error_eq (rodata1 : Option Section) (fro : Nat)
    (syms : List EncodedConstSymbol) (img1 : ELFImage) (e : PyError)
    (h : elfConstStep rodata1 fro syms img1 = .error e) :
    e = .attributeError := by
  rw [elfConstStep.eq_def] at h
  split at h
  · simp_all
  · split at h <;> simp_all

/-- The relocation step can only fail with `KeyError`. -/
lemma elfRelaStep_error_eq (w : ELFWriterState) (img2 : ELFImage)
    (sm : List (String × Nat)) (relocs : List CodeRelocation) (e : PyError)
    (h : elfRelaStep w img2 sm relocs = .error e) : e = .keyError := by
  rw [elfRelaStep] at h
  split at h
  · simp_all
  · split at h
    · dsimp only at h
      split at h
      next e2 heq2 =>
        have := relocLoop_error_eq_keyError _ _ _ _ _ heq2
        simp_all
      next heq2 => simp_all
    · dsimp only at h
      split at h
      next e2 heq2 =>
        have := relocLoop_error_eq_keyError _ _ _ _ _ heq2
        simp_all
      next heq2 => simp_all

/-- On an ABI-bound function, `ELFWriter.add_function` either succeeds
or raises `KeyError` (unresolvable relocation symbol) or
`AttributeError` (constant symbols with no `.rodata` section); the
ABI-binding assertion never fires. -/
lemma elf_add_function_cases (w : ELFWriterState) (f : Func)
    (h : f.is_abifunction = true) :
    (∃ w1, w.add_function f = .ok w1) ∨
    w.add_function f = .error .keyError ∨
    w.add_function f = .error .attributeError := by
  simp only [ELFWriterState.add_function, h, Bool.not_true,
    Bool.false_eq_true, if_false]
  split
  next e heq =>
    have := elfConstStep_error_eq _ _ _ _ _ heq
    simp_all
  next img2 sm heq =>
    split
    next e heq2 =>
      have := elfRelaStep_error_eq _ _ _ _ _ heq2
      simp_all
    next img4 rela2 heq2 =>
      left
      exact ⟨_, rfl⟩

/-- C8: for every writer variant supporting `add_function`, a function
not bound to a target ABI fails the entry assertion immediately (no
state is produced, so nothing was appended), and an ABI-bound function
never triggers that assertion failure. -/
theorem claim_C8 :
    (∀ (w : AssemblyWriterState) c (f : Func), f.is_abifunction = false →
       w.add_function c f = .error .assertionError) ∧
    (∀ (w : ELFWriterState) (f : Func), f.is_abifunction = false →
       w.add_function f = .error .assertionError) ∧
    (∀ (w : MachOWriterState) (f : Func), f.is_abifunction = false →
       w.add_function f = .error .assertionError) ∧
    (∀ (w : MSCOFFWriterState) (f : Func), f.is_abifunction = false →
       w.add_function f = .error .assertionError) ∧
    (∀ (w : AssemblyWriterState) c (f : Func), f.is_abifunction = true →
       w.add_function c f ≠ .error .assertionError) ∧
    (∀ (w : ELFWriterState) (f : Func), f.is_abifunction = true →
       w.add_function f ≠ .error .assertionError) ∧
    (∀ (w : MachOWriterState) (f : Func), f.is_abifunction = true →
       w.add_function f ≠ .error .assertionError) ∧
    (∀ (w : MSCOFFWriterState) (f : Func), f.is_abifunction = true →
       w.add_function f ≠ .error .assertionError) := by
  refine ⟨?_, ?_, ?_, ?_, ?_, ?_, ?_, ?_⟩
  · intro w c f h
    simp [AssemblyWriterState.add_function, h]
  · intro w f h
    simp [ELFWriterState.add_function, h]
  · intro w f h
    simp [MachOWriterState.add_function, h]
  · intro w f h
    simp [MSCOFFWriterState.add_function, h]
  · intro w c f h
    simp [AssemblyWriterState.add_function, h]
  · intro w f h
    rcases elf_add_function_cases w f h with ⟨w1, hw⟩ | hw | hw <;>
      simp [hw]
  · intro w f h
    simp [MachOWriterState.add_function, h]
  · intro w f h
    simp [MSCOFFWriterState.add_function, h]

/-- C8 witness: on concrete states, an unbound function is rejected by
the assertion in each writer variant and a bound function is not. -/
theorem claim_C8_witness :
    ((AssemblyWriter.init "a.s" "gas" none 0).toOption.getD
        { output_path := "a.s", assembly_format := "gas",
          comment_pfx := "#", output_header := "", previous_writer := none,
          self_id := 0 }).add_function "" sampleUnbound =
      .error .assertionError ∧
    (ELFWriter.init abi64 2 3 1).add_function sampleUnbound =
      .error .assertionError ∧
    (MachOWriter.init abi64 1 2).add_function sampleUnbound =
      .error .assertionError ∧
    (MSCOFFWriter.init abi64 0 3).add_function sampleUnbound =
      .error .assertionError ∧
    (ELFWriter.init abi64 2 3 1).add_function sampleF1 ≠
      .error .assertionError := by
  refine ⟨?_, ?_, ?_, ?_, ?_⟩
  · exact claim_C8.1 _ "" sampleUnbound rfl
  · exact claim_C8.2.1 _ sampleUnbound rfl
  · exact claim_C8.2.2.1 _ sampleUnbound rfl
  · exact claim_C8.2.2.2.1 _ sampleUnbound rfl
  · exact claim_C8.2.2.2.2.2.1 _ sampleF1 rfl

/-- C2: for every file-producing writer, a scope that an exception
escapes — whether raised by an `add_function` call after N ≥ 0
successful ones, or by the caller's own code after all calls succeeded
— ends with no file at `output_path` (any pre-existing file was
truncated on entry and the output unlinked on exit) and with the
original exception re-raised unchanged; only a scope that exits without
error leaves a file on disk. -/
theorem claim_C2 :
    (∀ (w : AssemblyWriterState) a fs funcs e,
       ((w.enter a fs).1).addFunctions ((w.enter a fs).2.2.file.getD "")
           funcs = .error e →
       ∀ inject, (w.runScope a fs funcs inject).2.2.1.file = none ∧
         (w.runScope a fs funcs inject).2.2.2 = .error (.py e)) ∧
    (∀ (w : AssemblyWriterState) a fs funcs c e,
       ((w.enter a fs).1).addFunctions ((w.enter a fs).2.2.file.getD "")
           funcs = .ok c →
       (w.runScope a fs funcs (some e)).2.2.1.file = none ∧
         (w.runScope a fs funcs (some e)).2.2.2 = .error e) ∧
    (∀ (w : AssemblyWriterState) a fs funcs c,
       ((w.enter a fs).1).addFunctions ((w.enter a fs).2.2.file.getD "")
           funcs = .ok c →
       (∃ b, (w.runScope a fs funcs none).2.2.1.file = some b) ∧
         (w.runScope a fs funcs none).2.2.2 = .ok ()) ∧
    (∀ (w : ELFWriterState) a fs funcs e,
       ((w.enter a fs).1).addFunctions funcs = .error e →
       ∀ inject, (w.runScope a fs funcs inject).2.2.1.file = none ∧
         (w.runScope a fs funcs inject).2.2.2 = .error (.py e)) ∧
    (∀ (w : ELFWriterState) a fs funcs w2 e,
       ((w.enter a fs).1).addFunctions funcs = .ok w2 →
       (w.runScope a fs funcs (some e)).2.2.1.file = none ∧
         (w.runScope a fs funcs (some e)).2.2.2 = .error e) ∧
    (∀ (w : ELFWriterState) a fs funcs w2,
       ((w.enter a fs).1).addFunctions funcs = .ok w2 →
       (∃ b, (w.runScope a fs funcs none).2.2.1.file = some b) ∧
         (w.runScope a fs funcs none).2.2.2 = .ok ()) ∧
    (∀ (w : MachOWriterState) a fs funcs e,
       ((w.enter a fs).1).addFunctions funcs = .error e →
       ∀ inject, (w.runScope a fs funcs inject).2.2.1.file = none ∧
         (w.runScope a fs funcs inject).2.2.2 = .error (.py e)) ∧
    (∀ (w : MachOWriterState) a fs funcs w2 e,
       ((w.enter a fs).1).addFunctions funcs = .ok w2 →
       (w.runScope a fs funcs (some e)).2.2.1.file = none ∧
         (w.runScope a fs funcs (some e)).2.2.2 = .error e) ∧
    (∀ (w : MachOWriterState) a fs funcs w2,
       ((w.enter a fs).1).addFunctions funcs = .ok w2 →
       (∃ b, (w.runScope a fs funcs none).2.2.1.file = some b) ∧
         (w.runScope a fs funcs none).2.2.2 = .ok ()) ∧
    (∀ (w : MSCOFFWriterState) a fs funcs e,
       ((w.enter a fs).1).addFunctions funcs = .error e →
       ∀ inject, (w.runScope a fs funcs inject).2.2.1.file = none ∧
         (w.runScope a fs funcs inject).2.2.2 = .error (.py e)) ∧
    (∀ (w : MSCOFFWriterState) a fs funcs w2 e,
       ((w.enter a fs).1).addFunctions funcs = .ok w2 →
       (w.runScope a fs funcs (some e)).2.2.1.file = none ∧
         (w.runScope a fs funcs (some e)).2.2.2 = .error e) ∧
    (∀ (w : MSCOFFWriterState) a fs funcs w2,
       ((w.enter a fs).1).addFunctions funcs = .ok w2 →
       (∃ b, (w.runScope a fs funcs none).2.2.1.file = some b) ∧
         (w.runScope a fs funcs none).2.2.2 = .ok ()) := by
  refine ⟨?_, ?_, ?_, ?_, ?_, ?_, ?_, ?_, ?_, ?_, ?_, ?_⟩
  · intro w a fs funcs e h inject
    simp only [AssemblyWriterState.enter, Option.getD_some] at h
    simp [AssemblyWriterState.runScope, AssemblyWriterState.enter,
      AssemblyWriterState.exit, h]
  · intro w a fs funcs c e h
    simp only [AssemblyWriterState.enter, Option.getD_some] at h
    simp [AssemblyWriterState.runScope, AssemblyWriterState.enter,
      AssemblyWriterState.exit, h]
  · intro w a fs funcs c h
    simp only [AssemblyWriterState.enter, Option.getD_some] at h
    simp [AssemblyWriterState.runScope, AssemblyWriterState.enter,
      AssemblyWriterState.exit, h]
  · intro w a fs funcs e h inject
    simp only [ELFWriterState.enter] at h
    simp [ELFWriterState.runScope, ELFWriterState.enter,
      ELFWriterState.exit, h]
  · intro w a fs funcs w2 e h
    simp only [ELFWriterState.enter] at h
    simp [ELFWriterState.runScope, ELFWriterState.enter,
      ELFWriterState.exit, h]
  · intro w a fs funcs w2 h
    simp only [ELFWriterState.enter] at h
    simp [ELFWriterState.runScope, ELFWriterState.enter,
      ELFWriterState.exit, h]
  · intro w a fs funcs e h inject
    simp only [MachOWriterState.enter] at h
    simp [MachOWriterState.runScope, MachOWriterState.enter,
      MachOWriterState.exit, h]
  · intro w a fs funcs w2 e h
    simp only [MachOWriterState.enter] at h
    simp [MachOWriterState.runScope, MachOWriterState.enter,
      MachOWriterState.exit, h]
  · intro w a fs funcs w2 h
    simp only [MachOWriterState.enter] at h
    simp [MachOWriterState.runScope, MachOWriterState.enter,
      MachOWriterState.exit, h]
  · intro w a fs funcs e h inject
    simp only [MSCOFFWriterState.enter] at h
    simp [MSCOFFWriterState.runScope, MSCOFFWriterState.enter,
      MSCOFFWriterState.exit, h]
  · intro w a fs funcs w2 e h
    simp only [MSCOFFWriterState.enter] at h
    simp [MSCOFFWriterState.runScope, MSCOFFWriterState.enter,
      MSCOFFWriterState.exit, h]
  · intro w a fs funcs w2 h
    simp only [MSCOFFWriterState.enter] at h
    simp [MSCOFFWriterState.runScope, MSCOFFWriterState.enter,
      MSCOFFWriterState.exit, h]

/-- C2 witness: a concrete ELF scope with one successful
`add_function` call and an injected caller exception ends with no file
on disk and the original exception re-raised; the same scope without
the exception leaves a file. -/
theorem claim_C2_witness :
    (((ELFWriter.init abi64 2 3 7).runScope (some 5) { file := some [0, 1] }
        [sampleF1] (some (.other 9))).2.2.1.file = none ∧
     ((ELFWriter.init abi64 2 3 7).runScope (some 5) { file := some [0, 1] }
        [sampleF1] (some (.other 9))).2.2.2 = .error (.other 9)) ∧
    ((∃ b, ((ELFWriter.init abi64 2 3 7).runScope (some 5)
        { file := some [0, 1] } [sampleF1] none).2.2.1.file = some b) ∧
     ((ELFWriter.init abi64 2 3 7).runScope (some 5) { file := some [0, 1] }
        [sampleF1] none).2.2.2 = .ok ()) := by
  constructor
  · exact claim_C2.2.2.2.2.1 (ELFWriter.init abi64 2 3 7) (some 5)
      { file := some [0, 1] } [sampleF1] _ (.other 9) rfl
  · exact claim_C2.2.2.2.2.2.1 (ELFWriter.init abi64 2 3 7) (some 5)
      { file := some [0, 1] } [sampleF1] _ rfl

/-- C9: every successful Mach-O `add_function` call appends exactly one
symbol, with Defined description, SectionRelative type, External
visibility, whose interned name is the function's name prefixed with a
single underscore, whose section index is the text section's index, and
whose value is the text-section content length captured before the
function's bytes were appended. -/
theorem claim_C9 (w : MachOWriterState) (f : Func) (w1 : MachOWriterState)
    (h : w.add_function f = .ok w1) :
    ∃ sym, w1.image.symbols = w.image.symbols ++ [sym] ∧
      sym.description = .Defined ∧
      sym.type = .SectionRelative ∧
      sym.visibility = .External ∧
      w1.image.string_table[sym.string_index]? = some ("_" ++ f.name) ∧
      sym.section_index = w.image.text_index ∧
      sym.value = w.image.text_content.length := by
  cases hb : f.is_abifunction with
  | false => simp [MachOWriterState.add_function, hb] at h
  | true =>
    simp only [MachOWriterState.add_function, hb, Bool.not_true,
      Bool.false_eq_true, if_false] at h
    cases h
    refine ⟨_, rfl, rfl, rfl, rfl, ?_, rfl, rfl⟩
    exact List.getElem?_concat_length _ _

/-- C9 witness: adding a concrete bound function to a fresh Mach-O
writer yields that symbol shape. -/
theorem claim_C9_witness :
    ∃ w1, (MachOWriter.init abi64 1 2).add_function sampleF1 = .ok w1 ∧
      ∃ sym, w1.image.symbols = (MachOWriter.init abi64 1 2).image.symbols
          ++ [sym] ∧
        sym.description = .Defined ∧
        sym.type = .SectionRelative ∧
        sym.visibility = .External ∧
        w1.image.string_table[sym.string_index]? = some ("_" ++ sampleF1.name) ∧
        sym.section_index = (MachOWriter.init abi64 1 2).image.text_index ∧
        sym.value = (MachOWriter.init abi64 1 2).image.text_content.length :=
  ⟨_, rfl, claim_C9 (MachOWriter.init abi64 1 2) sampleF1 _ rfl⟩

/-- The constant-symbol loop only appends to the symbol and string
tables (every appended symbol being Local/DataObject) and leaves the
rest of the Image untouched. -/
lemma constSymbolLoop_spec (ri ro : Nat) :
    ∀ (syms : List EncodedConstSymbol) (img : ELFImage)
      (m : List (String × Nat)),
    ∃ t u,
      (constSymbolLoop ri ro syms img m).1.symtab = img.symtab ++ t ∧
      (constSymbolLoop ri ro syms img m).1.strtab = img.strtab ++ u ∧
      (constSymbolLoop ri ro syms img m).1.symtab_index = img.symtab_index ∧
      (constSymbolLoop ri ro syms img m).1.next_index = img.next_index ∧
      (constSymbolLoop ri ro syms img m).1.bound_names = img.bound_names ∧
      (∀ s ∈ t, s.binding = .Local ∧ s.type = .DataObject) := by
  intro syms
  induction syms with
  | nil =>
    intro img m
    exact ⟨[], [], by simp [constSymbolLoop], by simp [constSymbolLoop],
      rfl, rfl, rfl, by simp⟩
  | cons s rest ih =>
    intro img m
    obtain ⟨t, u, h1, h2, h3, h4, h5, h6⟩ := ih
      { img with
          strtab := img.strtab ++ [s.name],
          symtab := img.symtab ++
            [{ name_index := img.strtab.length, value := ro + s.offset,
               content_size := s.size, section_index := ri,
               binding := .Local, type := .DataObject }] }
      ((s.name, img.symtab.length) :: m)
    refine ⟨{ name_index := img.strtab.length, value := ro + s.offset,
              content_size := s.size, section_index := ri,
              binding := .Local, type := .DataObject } :: t,
            s.name :: u, ?_, ?_, ?_, ?_, ?_, ?_⟩
    · rw [constSymbolLoop]
      simp only [ELFImage.strtab_add, ELFImage.symtab_add]
      rw [h1]
      simp
    · rw [constSymbolLoop]
      simp only [ELFImage.strtab_add, ELFImage.symtab_add]
      rw [h2]
      simp
    · rw [constSymbolLoop]
      simp only [ELFImage.strtab_add, ELFImage.symtab_add]
      rw [h3]
    · rw [constSymbolLoop]
      simp only [ELFImage.strtab_add, ELFImage.symtab_add]
      rw [h4]
    · rw [constSymbolLoop]
      simp only [ELFImage.strtab_add, ELFImage.symtab_add]
      rw [h5]
    · intro x hx
      rw [List.mem_cons] at hx
      rcases hx with hx | hx
      · subst hx
        exact ⟨rfl, rfl⟩
      · exact h6 x hx

/-- The `.rodata` step leaves the symbol and string tables untouched,
appends `.rodata` to the bound-section names exactly when it lazily
binds it (non-empty constant data and no `.rodata` yet), and yields a
`.rodata` section exactly when one existed before or constant data is
non-empty. -/
lemma elfRodataStep_spec (w : ELFWriterState) (cc : Bytes) :
    (elfRodataStep w cc).1.symtab = w.image.symtab ∧
    (elfRodataStep w cc).1.strtab = w.image.strtab ∧
    (elfRodataStep w cc).1.symtab_index = w.image.symtab_index ∧
    (elfRodataStep w cc).1.bound_names = w.image.bound_names ++
      (if cc ≠ [] ∧ w.rodata_section = none then [".rodata"] else []) ∧
    ((elfRodataStep w cc).2.1.isSome ↔
      (w.rodata_section.isSome ∨ cc ≠ [])) := by
  by_cases hc : cc = []
  · subst hc
    simp [elfRodataStep]
  · cases hro : w.rodata_section with
    | some ro =>
      simp [elfRodataStep, List.isEmpty_iff, hc, hro, ELFImage.bind_section]
    | none =>
      simp [elfRodataStep, List.isEmpty_iff, hc, hro, ELFImage.bind_section]

/-- The constant-symbol step, on success, only appends Local/DataObject
symbols to the symbol table and names to the string table. -/
lemma elfConstStep_ok_spec (rodata1 : Option Section) (fro : Nat)
    (syms : List EncodedConstSymbol) (img1 : ELFImage)
    (p : ELFImage × List (String × Nat))
    (h : elfConstStep rodata1 fro syms img1 = .ok p) :
    ∃ t u, p.1.symtab = img1.symtab ++ t ∧
      p.1.strtab = img1.strtab ++ u ∧
      p.1.symtab_index = img1.symtab_index ∧
      p.1.next_index = img1.next_index ∧
      p.1.bound_names = img1.bound_names ∧
      (∀ s ∈ t, s.binding = .Local ∧ s.type = .DataObject) := by
  rw [elfConstStep.eq_def] at h
  split at h
  · injection h with h
    subst h
    exact ⟨[], [], by simp, by simp, rfl, rfl, rfl, by simp⟩
  · split at h
    · cases h
    · injection h with h
      subst h
      exact constSymbolLoop_spec _ fro _ img1 []

/-- The relocation step, on success, leaves the symbol and string
tables untouched, appends `.rela.text` to the bound-section names
exactly when it lazily binds it, and yields a `.rela.text` section
exactly when one existed before or relocations are present. -/
lemma elfRelaStep_ok_spec (w : ELFWriterState) (img2 : ELFImage)
    (sm : List (String × Nat)) (relocs : List CodeRelocation)
    (p : ELFImage × Option Section)
    (h : elfRelaStep w img2 sm relocs = .ok p) :
    p.1.symtab = img2.symtab ∧
    p.1.strtab = img2.strtab ∧
    p.1.symtab_index = img2.symtab_index ∧
    p.1.bound_names = img2.bound_names ++
      (if relocs ≠ [] ∧ w.text_rela_section = none
       then [".rela.text"] else []) ∧
    (p.2.isSome ↔ (w.text_rela_section.isSome ∨ relocs ≠ [])) := by
  rw [elfRelaStep] at h
  split at h
  next hr =>
    injection h with h
    subst h
    rw [List.isEmpty_iff] at hr
    simp [hr]
  next hr =>
    have hne : relocs ≠ [] := by
      simpa [List.isEmpty_iff] using hr
    split at h
    · dsimp only at h
      split at h
      · cases h
      · injection h with h
        subst h
        simp_all
    · dsimp only at h
      split at h
      · cases h
      · injection h with h
        subst h
        simp_all [ELFImage.bind_section]

/-- Structure of a successful `ELFWriter.add_function` call: the
function was ABI-bound; the ABI is unchanged; the code bytes are
appended to `.text`; the symbol table grows by some Local/DataObject
constant symbols followed by the Global/Function symbol whose value is
the `.text` length captured before the append and whose size is the
code length; `.rodata` and `.rela.text` exist afterwards exactly when
they existed before or the call supplied constant data / relocations;
and the bound-section names grow by exactly the sections lazily bound
by this call. -/
lemma elf_add_function_ok_destruct (w : ELFWriterState) (f : Func)
    (w1 : ELFWriterState) (h : w.add_function f = .ok w1) :
    f.is_abifunction = true ∧
    w1.abi = w.abi ∧
    w1.text_section = w.text_section.append f.encoded.code_content ∧
    (∃ t ni,
      (∀ s ∈ t, s.binding = .Local ∧ s.type = .DataObject) ∧
      w1.image.symtab = w.image.symtab ++ t ++
        [{ name_index := ni, value := w.text_section.content.length,
           content_size := f.encoded.code_content.length,
           section_index := w.text_section.index,
           binding := .Global, type := .Function }]) ∧
    (w1.rodata_section.isSome ↔
      (w.rodata_section.isSome ∨ f.encoded.const_content ≠ [])) ∧
    (w1.text_rela_section.isSome ↔
      (w.text_rela_section.isSome ∨ f.encoded.code_relocations ≠ [])) ∧
    w1.image.bound_names = (w.image.bound_names ++
      (if f.encoded.const_content ≠ [] ∧ w.rodata_section = none
       then [".rodata"] else [])) ++
      (if f.encoded.code_relocations ≠ [] ∧ w.text_rela_section = none
       then [".rela.text"] else []) := by
  cases hb : f.is_abifunction with
  | false => simp [ELFWriterState.add_function, hb] at h
  | true =>
    simp only [ELFWriterState.add_function, hb, Bool.not_true,
      Bool.false_eq_true, if_false] at h
    refine ⟨rfl, ?_⟩
    split at h
    · cases h
    next img2 sm heq =>
      split at h
      · cases h
      next img4 rela2 heq2 =>
        injection h with h
        subst h
        obtain ⟨hrs1, hrs2, hrs3, hrs4, hrs5⟩ :=
          elfRodataStep_spec w f.encoded.const_content
        obtain ⟨t, u, hc1, hc2, hc3, hc4, hc5, hc6⟩ :=
          elfConstStep_ok_spec _ _ _ _ _ heq
        obtain ⟨hr1, hr2, hr3, hr4, hr5⟩ := elfRelaStep_ok_spec _ _ _ _ _ heq2
        simp only at hc1 hc2 hc3 hc4 hc5 hr1 hr2 hr3 hr4 hr5
        refine ⟨rfl, rfl, ⟨t, (img4.strtab_add f.name).2, hc6, ?_⟩, ?_, ?_, ?_⟩
        · simp [ELFImage.symtab_add, ELFImage.strtab_add, hr1, hc1, hrs1,
            List.append_assoc]
        · exact hrs5
        · exact hr5
        · simp [ELFImage.symtab_add, ELFImage.strtab_add, hr4, hc5, hrs4,
            List.append_assoc]

/-- Whether an ELF symbol is a function symbol (Global binding,
Function type) as created for each added function. -/
def isFuncSym (s : ELFSymbol) : Bool :=
  s.binding == SymbolBinding.Global && s.type == SymbolType.Function

/-- Expected (value, size) pairs of the function symbols for a list of
functions laid out gaplessly starting at offset `off`: each value is
the running total of the preceding code lengths, each size the
function's own code length. -/
def funcValueSizes (off : Nat) : List Func → List (Nat × Nat)
  | [] => []
  | f :: rest =>
    (off, f.encoded.code_content.length) ::
      funcValueSizes (off + f.encoded.code_content.length) rest

/-- A successful `add_function` call appends exactly one function
symbol (as seen through the `isFuncSym` filter), carrying the captured
`.text` offset and the code length, and extends `.text` by the code
bytes. -/
lemma elf_add_function_funcSyms (w : ELFWriterState) (f : Func)
    (w1 : ELFWriterState) (h : w.add_function f = .ok w1) :
    (w1.image.symtab.filter isFuncSym).map (fun s => (s.value, s.content_size))
      = (w.image.symtab.filter isFuncSym).map
          (fun s => (s.value, s.content_size)) ++
        [(w.text_section.content.length, f.encoded.code_content.length)] ∧
    w1.text_section.content.length =
      w.text_section.content.length + f.encoded.code_content.length := by
  obtain ⟨-, -, htext, ⟨t, ni, ht, hsym⟩, -, -, -⟩ :=
    elf_add_function_ok_destruct w f w1 h
  constructor
  · rw [hsym]
    have hfilt : t.filter isFuncSym = [] := by
      rw [List.filter_eq_nil_iff]
      intro s hs
      obtain ⟨hb, -⟩ := ht s hs
      simp [isFuncSym, hb]
    simp [List.filter_append, hfilt, isFuncSym]
  · rw [htext]
    simp [Section.append]

/-- Over any successful sequence of `add_function` calls, the function
symbols' (value, size) pairs extend by exactly the gapless layout
starting at the current `.text` length. -/
lemma elf_addFunctions_funcSyms (funcs : List Func) :
    ∀ (w w' : ELFWriterState), w.addFunctions funcs = .ok w' →
    (w'.image.symtab.filter isFuncSym).map (fun s => (s.value, s.content_size))
      = (w.image.symtab.filter isFuncSym).map
          (fun s => (s.value, s.content_size)) ++
        funcValueSizes w.text_section.content.length funcs ∧
    w'.text_section.content.length = w.text_section.content.length +
      (funcs.map (fun f => f.encoded.code_content.length)).sum := by
  induction funcs with
  | nil =>
    intro w w' h
    rw [ELFWriterState.addFunctions] at h
    injection h with h
    subst h
    simp [funcValueSizes]
  | cons f rest ih =>
    intro w w' h
    rw [ELFWriterState.addFunctions] at h
    cases haf : w.add_function f with
    | error e => rw [haf] at h; cases h
    | ok w1 =>
      rw [haf] at h
      obtain ⟨hmap, hlen⟩ := elf_add_function_funcSyms w f w1 haf
      obtain ⟨ihmap, ihlen⟩ := ih w1 w' h
      constructor
      · rw [ihmap, hmap, funcValueSizes, hlen]
        simp [List.append_assoc]
      · rw [ihlen, hlen, List.map_cons, List.sum_cons]
        omega

/-- C1: for every sequence of `add_function` calls on a fresh ELF
writer, the Global/Function symbols in the symbol table are exactly one
per added function, in order, each with value equal to the total code
length of all previously added functions (the `.text` length captured
before its code was appended) and size equal to its own code length. -/
theorem claim_C1 (abi : ABI) (si bi id : Nat) (funcs : List Func)
    (w' : ELFWriterState)
    (h : (ELFWriter.init abi si bi id).addFunctions funcs = .ok w') :
    (w'.image.symtab.filter isFuncSym).map (fun s => (s.value, s.content_size))
      = funcValueSizes 0 funcs := by
  have := (elf_addFunctions_funcSyms funcs (ELFWriter.init abi si bi id)
    w' h).1
  simpa [ELFWriter.init, ELFImage.init, ELFImage.bind_section] using this

/-- C1 witness: two concrete functions of code lengths 2 and 8 yield
function symbols (0, 2) and (2, 8). -/
theorem claim_C1_witness :
    ∃ w', (ELFWriter.init abi64 2 3 0).addFunctions [sampleF1, sampleF2]
        = .ok w' ∧
      (w'.image.symtab.filter isFuncSym).map
          (fun s => (s.value, s.content_size)) =
        [(0, 2), (2, 8)] :=
  ⟨_, rfl, claim_C1 abi64 2 3 0 [sampleF1, sampleF2] _ rfl⟩

/-- `add_function` on an ABI-bound function with no constant data, no
constant symbols and no relocations reduces to: append the code to
`.text`, intern the name, append the Global/Function symbol — nothing
else changes. -/
lemma elf_add_function_minimal (w : ELFWriterState) (f : Func)
    (hb : f.is_abifunction = true) (hc : f.encoded.const_content = [])
    (hs : f.encoded.const_symbols = [])
    (hr : f.encoded.code_relocations = []) :
    w.add_function f = .ok { w with
      image := { w.image with
          strtab := w.image.strtab ++ [f.name],
          symtab := w.image.symtab ++
            [{ name_index := w.image.strtab.length,
               value := w.text_section.content.length,
               content_size := f.encoded.code_content.length,
               section_index := w.text_section.index,
               binding := .Global, type := .Function }] },
      text_section := w.text_section.append f.encoded.code_content } := by
  simp [ELFWriterState.add_function, hb, elfRodataStep, hc, hs, hr,
    elfConstStep, elfRelaStep, ELFImage.strtab_add, ELFImage.symtab_add]

/-- Per-call bookkeeping of the bound-section name list against the
presence of the lazily bound sections. -/
lemma elf_add_function_count (w : ELFWriterState) (f : Func)
    (w1 : ELFWriterState) (h : w.add_function f = .ok w1) :
    w1.image.bound_names.count ".rodata" +
        (if w.rodata_section.isSome then 1 else 0) =
      w.image.bound_names.count ".rodata" +
        (if w1.rodata_section.isSome then 1 else 0) ∧
    w1.image.bound_names.count ".rela.text" +
        (if w.text_rela_section.isSome then 1 else 0) =
      w.image.bound_names.count ".rela.text" +
        (if w1.text_rela_section.isSome then 1 else 0) := by
  obtain ⟨-, -, -, -, hro, hre, hbn⟩ := elf_add_function_ok_destruct w f w1 h
  rw [hbn]
  by_cases h1 : f.encoded.const_content ≠ [] ∧ w.rodata_section = none <;>
    by_cases h2 : f.encoded.code_relocations ≠ [] ∧
      w.text_rela_section = none <;>
    simp only [h1, h2, if_true, if_pos, if_neg, if_false, List.count_append,
      List.append_nil] <;>
    constructor <;>
    · rcases hro1 : w.rodata_section with - | r <;>
        rcases hre1 : w.text_rela_section with - | s <;>
        simp_all [List.count_append]

/-- Over a successful sequence of calls: each lazy section exists at
the end exactly when it existed at the start or some call supplied the
triggering payload, and the count bookkeeping is preserved. -/
lemma elf_addFunctions_sections (funcs : List Func) :
    ∀ (w w' : ELFWriterState), w.addFunctions funcs = .ok w' →
    (w'.rodata_section.isSome ↔
      (w.rodata_section.isSome ∨ ∃ f ∈ funcs, f.encoded.const_content ≠ [])) ∧
    (w'.text_rela_section.isSome ↔
      (w.text_rela_section.isSome ∨
        ∃ f ∈ funcs, f.encoded.code_relocations ≠ [])) ∧
    (w'.image.bound_names.count ".rodata" +
        (if w.rodata_section.isSome then 1 else 0) =
      w.image.bound_names.count ".rodata" +
        (if w'.rodata_section.isSome then 1 else 0)) ∧
    (w'.image.bound_names.count ".rela.text" +
        (if w.text_rela_section.isSome then 1 else 0) =
      w.image.bound_names.count ".rela.text" +
        (if w'.text_rela_section.isSome then 1 else 0)) := by
  induction funcs with
  | nil =>
    intro w w' h
    rw [ELFWriterState.addFunctions] at h
    injection h with h
    subst h
    simp
  | cons f rest ih =>
    intro w w' h
    rw [ELFWriterState.addFunctions] at h
    cases haf : w.add_function f with
    | error e => rw [haf] at h; cases h
    | ok w1 =>
      rw [haf] at h
      obtain ⟨-, -, -, -, hro, hre, -⟩ :=
        elf_add_function_ok_destruct w f w1 haf
      obtain ⟨hcnt1, hcnt2⟩ := elf_add_function_count w f w1 haf
      obtain ⟨ihro, ihre, ihc1, ihc2⟩ := ih w1 w' h
      refine ⟨?_, ?_, ?_, ?_⟩
      · rw [ihro, hro]
        simp [List.exists_mem_cons_iff, or_assoc]
      · rw [ihre, hre]
        simp [List.exists_mem_cons_iff, or_assoc]
      · omega
      · omega

/-- C7: over any successful scope on a fresh ELF writer, `.rodata` is
present at the end iff some call supplied non-empty constant data, and
`.rela.text` iff some call supplied code relocations; each lazy section
is bound at most once across the whole scope; and a single call with no
constants and no relocations changes only `.text` and adds only the
function symbol (and its interned name). -/
theorem claim_C7 :
    (∀ abi si bi id funcs (w' : ELFWriterState),
       (ELFWriter.init abi si bi id).addFunctions funcs = .ok w' →
       (w'.rodata_section.isSome ↔
          ∃ f ∈ funcs, f.encoded.const_content ≠ []) ∧
       (w'.text_rela_section.isSome ↔
          ∃ f ∈ funcs, f.encoded.code_relocations ≠ []) ∧
       w'.image.bound_names.count ".rodata" ≤ 1 ∧
       w'.image.bound_names.count ".rela.text" ≤ 1) ∧
    (∀ (w : ELFWriterState) (f : Func) (w1 : ELFWriterState),
       w.add_function f = .ok w1 →
       f.encoded.const_content = [] → f.encoded.const_symbols = [] →
       f.encoded.code_relocations = [] →
       w1.rodata_section = w.rodata_section ∧
       w1.text_rela_section = w.text_rela_section ∧
       w1.image.bound_names = w.image.bound_names ∧
       w1.text_section = w.text_section.append f.encoded.code_content ∧
       w1.image.strtab = w.image.strtab ++ [f.name] ∧
       w1.image.symtab = w.image.symtab ++
         [{ name_index := w.image.strtab.length,
            value := w.text_section.content.length,
            content_size := f.encoded.code_content.length,
            section_index := w.text_section.index,
            binding := .Global, type := .Function }]) := by
  constructor
  · intro abi si bi id funcs w' h
    obtain ⟨hro, hre, hc1, hc2⟩ :=
      elf_addFunctions_sections funcs (ELFWriter.init abi si bi id) w' h
    have e1 : (ELFWriter.init abi si bi id).rodata_section = none := rfl
    have e2 : (ELFWriter.init abi si bi id).text_rela_section = none := rfl
    have e3 : (ELFWriter.init abi si bi id).image.bound_names = [".text"] := by
      simp [ELFWriter.init, ELFImage.init, ELFImage.bind_section]
    rw [e1, e3] at hc1
    rw [e2, e3] at hc2
    rw [e1] at hro
    rw [e2] at hre
    have h0 : List.count ".rodata" ([".text"] : List String) = 0 := by decide
    have h1 : List.count ".rela.text" ([".text"] : List String) = 0 := by
      decide
    rw [h0] at hc1
    rw [h1] at hc2
    simp only [Option.isSome_none, Bool.false_eq_true, if_false, false_or]
      at hro hre hc1 hc2
    refine ⟨hro, hre, ?_, ?_⟩
    · cases hx : w'.rodata_section.isSome <;> simp [hx] at hc1 <;> omega
    · cases hx : w'.text_rela_section.isSome <;> simp [hx] at hc2 <;> omega
  · intro w f w1 h hc hs hr
    have hb : f.is_abifunction = true :=
      (elf_add_function_ok_destruct w f w1 h).1
    rw [elf_add_function_minimal w f hb hc hs hr] at h
    injection h with h
    subst h
    exact ⟨rfl, rfl, rfl, rfl, rfl, rfl⟩

/-- C7 witness: a concrete scope with one plain function and one
function carrying a constant and a relocation has both lazy sections
present exactly once; a plain call leaves everything but `.text` and
the symbol tables unchanged. -/
theorem claim_C7_witness :
    (∃ w', (ELFWriter.init abi64 2 3 0).addFunctions [sampleF1, sampleF2]
        = .ok w' ∧
      ((w'.rodata_section.isSome ↔
          ∃ f ∈ [sampleF1, sampleF2], f.encoded.const_content ≠ []) ∧
       (w'.text_rela_section.isSome ↔
          ∃ f ∈ [sampleF1, sampleF2], f.encoded.code_relocations ≠ []) ∧
       w'.image.bound_names.count ".rodata" ≤ 1 ∧
       w'.image.bound_names.count ".rela.text" ≤ 1)) ∧
    (∃ w1, (ELFWriter.init abi64 2 3 0).add_function sampleF1 = .ok w1 ∧
      w1.rodata_section = (ELFWriter.init abi64 2 3 0).rodata_section ∧
      w1.text_rela_section =
        (ELFWriter.init abi64 2 3 0).text_rela_section ∧
      w1.image.bound_names =
        (ELFWriter.init abi64 2 3 0).image.bound_names) := by
  constructor
  · refine ⟨_, rfl, claim_C7.1 abi64 2 3 0 [sampleF1, sampleF2] _ rfl⟩
  · refine ⟨_, rfl, ?_⟩
    obtain ⟨h1, h2, h3, -⟩ :=
      claim_C7.2 (ELFWriter.init abi64 2 3 0) sampleF1 _ rfl rfl rfl rfl
    exact ⟨h1, h2, h3⟩

/-- Domain of the per-call symbol map built by the constant-symbol
loop: a name resolves exactly when it names one of the processed
constant symbols or was already in the accumulator. -/
lemma constSymbolLoop_lookup_isSome (ri ro : Nat) :
    ∀ (syms : List EncodedConstSymbol) (img : ELFImage)
      (m : List (String × Nat)) (name : String),
    (dictLookup (constSymbolLoop ri ro syms img m).2 name).isSome ↔
      (name ∈ syms.map (fun s => s.name) ∨ (dictLookup m name).isSome) := by
  intro syms
  induction syms with
  | nil =>
    intro img m name
    simp [constSymbolLoop]
  | cons s rest ih =>
    intro img m name
    rw [constSymbolLoop]
    simp only [ELFImage.strtab_add, ELFImage.symtab_add]
    rw [ih]
    by_cases hn : s.name = name
    · simp [dictLookup, hn]
    · have hn2 : ¬name = s.name := fun hx => hn hx.symm
      simp [dictLookup, hn, hn2]

/-- A successful relocation loop resolved every relocation's symbol in
the map. -/
lemma relocLoop_ok_mem (enc : Encoder) (m : List (String × Nat)) :
    ∀ (rs : List CodeRelocation) (rela rela1 : Section),
    relocLoop enc m rela rs = .ok rela1 →
    ∀ r ∈ rs, (dictLookup m r.symbol).isSome := by
  intro rs
  induction rs with
  | nil =>
    intro rela rela1 h r hr
    simp at hr
  | cons r0 rest ih =>
    intro rela rela1 h r hr
    rw [relocLoop] at h
    cases hl : dictLookup m r0.symbol with
    | none => rw [hl] at h; cases h
    | some idx =>
      rw [hl] at h
      rw [List.mem_cons] at hr
      rcases hr with hr | hr
      · subst hr
        simp [hl]
      · exact ih _ _ h r hr

/-- The relocation loop raises `KeyError` as soon as some relocation's
symbol is missing from the map. -/
lemma relocLoop_error_of_missing (enc : Encoder) (m : List (String × Nat)) :
    ∀ (rs : List CodeRelocation) (rela : Section),
    (∃ r ∈ rs, dictLookup m r.symbol = none) →
    relocLoop enc m rela rs = .error .keyError := by
  intro rs
  induction rs with
  | nil =>
    intro rela h
    simp at h
  | cons r0 rest ih =>
    intro rela h
    rw [relocLoop]
    cases hl : dictLookup m r0.symbol with
    | none => rfl
    | some idx =>
      obtain ⟨r, hr, hnone⟩ := h
      rw [List.mem_cons] at hr
      rcases hr with hr | hr
      · subst hr
        rw [hl] at hnone
        cases hnone
      · exact ih _ ⟨r, hr, hnone⟩

/-- The relocation step raises `KeyError` when some relocation's symbol
is missing from the per-call map. -/
lemma elfRelaStep_missing (w : ELFWriterState) (img2 : ELFImage)
    (sm : List (String × Nat)) (relocs : List CodeRelocation)
    (h : ∃ r ∈ relocs, dictLookup sm r.symbol = none) :
    elfRelaStep w img2 sm relocs = .error .keyError := by
  have hne : relocs ≠ [] := by
    rintro rfl
    simp at h
  rw [elfRelaStep, if_neg (by simp [List.isEmpty_iff, hne])]
  dsimp only
  cases hts : w.text_rela_section <;>
    simp [hts, relocLoop_error_of_missing _ _ _ _ h]

/-- A successful relocation step resolved every relocation's symbol. -/
lemma elfRelaStep_ok_lookups (w : ELFWriterState) (img2 : ELFImage)
    (sm : List (String × Nat)) (relocs : List CodeRelocation)
    (p : ELFImage × Option Section)
    (h : elfRelaStep w img2 sm relocs = .ok p) :
    ∀ r ∈ relocs, (dictLookup sm r.symbol).isSome := by
  intro r hr
  by_cases hl : (dictLookup sm r.symbol).isSome
  · exact hl
  · rw [Option.isSome_iff_ne_none, ne_eq, not_not] at hl
    rw [elfRelaStep_missing w img2 sm relocs ⟨r, hr, hl⟩] at h
    cases h

/-- The per-call symbol map produced by a successful constant-symbol
step resolves exactly the names of this call's constant symbols. -/
lemma elfConstStep_ok_lookup_iff (rodata1 : Option Section) (fro : Nat)
    (syms : List EncodedConstSymbol) (img1 : ELFImage)
    (p : ELFImage × List (String × Nat))
    (h : elfConstStep rodata1 fro syms img1 = .ok p) (name : String) :
    (dictLookup p.2 name).isSome ↔ name ∈ syms.map (fun s => s.name) := by
  rw [elfConstStep.eq_def] at h
  split at h
  · injection h with h
    subst h
    simp [dictLookup]
  · split at h
    · cases h
    · injection h with h
      subst h
      rw [constSymbolLoop_lookup_isSome]
      simp [dictLookup]

/-- C10: the relocation name-to-index map is rebuilt empty on every
`add_function` call, so a call can only succeed when every relocation
references a constant symbol supplied by that same call — a relocation
never resolves to a constant symbol of an earlier function — and a call
with a relocation whose name is not among its own constant symbols
fails with the lookup error (`KeyError`), whatever symbols earlier
calls created. -/
theorem claim_C10 :
    (∀ (w : ELFWriterState) (f : Func) (w1 : ELFWriterState),
       w.add_function f = .ok w1 →
       ∀ r ∈ f.encoded.code_relocations,
         r.symbol ∈ f.encoded.const_symbols.map (fun s => s.name)) ∧
    (∀ (w : ELFWriterState) (f : Func) (r : CodeRelocation),
       f.is_abifunction = true →
       r ∈ f.encoded.code_relocations →
       r.symbol ∉ f.encoded.const_symbols.map (fun s => s.name) →
       (f.encoded.const_symbols ≠ [] →
         (f.encoded.const_content ≠ [] ∨ w.rodata_section.isSome)) →
       w.add_function f = .error .keyError) := by
  constructor
  · intro w f w1 h r hr
    have hb : f.is_abifunction = true :=
      (elf_add_function_ok_destruct w f w1 h).1
    simp only [ELFWriterState.add_function, hb, Bool.not_true,
      Bool.false_eq_true, if_false] at h
    split at h
    · cases h
    next img2 sm heq =>
      split at h
      · cases h
      next img4 rela2 heq2 =>
        have hl := elfRelaStep_ok_lookups w img2 sm
          f.encoded.code_relocations _ heq2 r hr
        exact (elfConstStep_ok_lookup_iff _ _ _ _ _ heq r.symbol).mp hl
  · intro w f r hb hr hnot hguard
    simp only [ELFWriterState.add_function, hb, Bool.not_true,
      Bool.false_eq_true, if_false]
    cases hcs : f.encoded.const_symbols with
    | nil =>
      have heq : elfConstStep (elfRodataStep w f.encoded.const_content).2.1
          (elfRodataStep w f.encoded.const_content).2.2
          ([] : List EncodedConstSymbol)
          (elfRodataStep w f.encoded.const_content).1 =
          .ok ((elfRodataStep w f.encoded.const_content).1, []) := rfl
      rw [heq]
      dsimp only
      have hnone : dictLookup ([] : List (String × Nat)) r.symbol = none :=
        rfl
      rw [elfRelaStep_missing _ _ _ _ ⟨r, hr, hnone⟩]
    | cons s rest =>
      have hso : (elfRodataStep w f.encoded.const_content).2.1.isSome := by
        rw [(elfRodataStep_spec w f.encoded.const_content).2.2.2.2]
        rcases hguard (by rw [hcs]; simp) with hg | hg
        · right
          exact hg
        · left
          exact hg
      obtain ⟨ro, hro⟩ := Option.isSome_iff_exists.mp hso
      have heq : elfConstStep (elfRodataStep w f.encoded.const_content).2.1
          (elfRodataStep w f.encoded.const_content).2.2
          (s :: rest)
          (elfRodataStep w f.encoded.const_content).1 =
          .ok (constSymbolLoop ro.index
                 (elfRodataStep w f.encoded.const_content).2.2 (s :: rest)
                 (elfRodataStep w f.encoded.const_content).1 []) := by
        rw [hro]
        rfl
      rw [heq]
      dsimp only
      rw [hcs] at hnot
      have hnone : dictLookup (constSymbolLoop ro.index
          (elfRodataStep w f.encoded.const_content).2.2 (s :: rest)
          (elfRodataStep w f.encoded.const_content).1 []).2 r.symbol =
          none := by
        rw [← Option.not_isSome_iff_eq_none, constSymbolLoop_lookup_isSome]
        simpa [dictLookup] using hnot
      rw [elfRelaStep_missing _ _ _ _ ⟨r, hr, hnone⟩]

/-- C10 witness: a concrete call whose relocation references the name
"c2", which is not among its own constant symbols (named "k"), fails
with `KeyError` even right after a call that did create a constant
symbol named "c2". -/
theorem claim_C10_witness :
    ∃ w1, (ELFWriter.init abi64 2 3 0).add_function sampleF2 = .ok w1 ∧
      w1.add_function sampleDangling = .error .keyError := by
  refine ⟨_, rfl, ?_⟩
  exact claim_C10.2 _ sampleDangling { offset := 3, symbol := "c2" } rfl
    (by decide) (by decide) (fun _ => by decide)

/-- C4: on a 32-bit target the writer declares a `.rela.text` entry
size of 12 bytes but still encodes every relocation entry as three
`uint64` fields, appending 24 bytes per entry (and growing the declared
content size by those same 24 bytes): the appended entry length
contradicts the declared entry size.  Demonstrated on a concrete 32-bit
ABI with a single relocation. -/
theorem claim_C4 :
    ∃ w1, (ELFWriter.init abi32 2 3 0).add_function sampleF2 = .ok w1 ∧
      ∃ rela, w1.text_rela_section = some rela ∧
        rela.header.entry_size = 12 ∧
        rela.content.length = 24 ∧
        rela.header.content_size = 24 ∧
        rela.content.length ≠ rela.header.entry_size :=
  ⟨_, rfl, _, rfl, rfl, rfl, rfl, by decide⟩

/-- A `uint64` encoding is always exactly 8 bytes. -/
lemma Encoder.uint64_length (e : Encoder) (n : Nat) :
    (e.uint64 n).length = 8 := by
  cases he : e.endianness <;> simp [Encoder.uint64, he]

/-- Where a name in the per-call symbol map points: either it was
already in the accumulator, or it is the symbol-table index — at or
past the initial table length — of the Local/DataObject symbol built
for a constant symbol of that name, whose interned name can be read
back from the string table. -/
lemma constSymbolLoop_lookup_spec (ri ro : Nat) :
    ∀ (syms : List EncodedConstSymbol) (img : ELFImage)
      (m : List (String × Nat)) (name : String) (idx : Nat),
    dictLookup (constSymbolLoop ri ro syms img m).2 name = some idx →
    dictLookup m name = some idx ∨
    (img.symtab.length ≤ idx ∧
     ∃ s ∈ syms, s.name = name ∧
       ∃ ni, (constSymbolLoop ri ro syms img m).1.symtab[idx]? =
           some { name_index := ni, value := ro + s.offset,
                  content_size := s.size, section_index := ri,
                  binding := .Local, type := .DataObject } ∧
         (constSymbolLoop ri ro syms img m).1.strtab[ni]? = some s.name) := by
  intro syms
  induction syms with
  | nil =>
    intro img m name idx hl
    left
    simpa [constSymbolLoop] using hl
  | cons s rest ih =>
    intro img m name idx hl
    have hstep : constSymbolLoop ri ro (s :: rest) img m =
        constSymbolLoop ri ro rest
          { img with
              strtab := img.strtab ++ [s.name],
              symtab := img.symtab ++
                [{ name_index := img.strtab.length,
                   value := ro + s.offset, content_size := s.size,
                   section_index := ri,
                   binding := .Local, type := .DataObject }] }
          ((s.name, img.symtab.length) :: m) := by
      rw [constSymbolLoop]
      simp only [ELFImage.strtab_add, ELFImage.symtab_add]
    rw [hstep] at hl ⊢
    rcases ih _ _ _ _ hl with hm | ⟨hle, s1, hs1, hname, ni, hsy, hst⟩
    · rw [dictLookup] at hm
      by_cases hn : s.name = name
      · rw [if_pos hn] at hm
        injection hm with hm
        subst hm
        right
        obtain ⟨t, u, h1, h2, -, -, -, -⟩ := constSymbolLoop_spec ri ro rest
          { img with
              strtab := img.strtab ++ [s.name],
              symtab := img.symtab ++
                [{ name_index := img.strtab.length,
                   value := ro + s.offset, content_size := s.size,
                   section_index := ri,
                   binding := .Local, type := .DataObject }] }
          ((s.name, img.symtab.length) :: m)
        refine ⟨le_refl _, s, List.mem_cons_self s rest, hn,
          img.strtab.length, ?_, ?_⟩
        · rw [h1]
          simp only
          rw [List.append_assoc,
            List.getElem?_append_right (le_refl _)]
          simp
        · rw [h2]
          simp only
          rw [List.append_assoc,
            List.getElem?_append_right (le_refl _)]
          simp
      · rw [if_neg hn] at hm
        left
        exact hm
    · right
      refine ⟨?_, s1, List.mem_cons_of_mem s hs1, hname, ni, hsy, hst⟩
      simp only [List.length_append, List.length_cons,
        List.length_nil] at hle
      omega

/-- Byte-level content of a successful relocation loop: the section
content grows by one 24-byte entry per relocation — `uint64` offset,
then `uint64` of `(symbol_index << 32) | 2`, then `uint64` of the
addend −4 masked to 64 bits — the declared content size grows by
exactly the appended byte count, and the header's entry size, type and
index are untouched. -/
lemma relocLoop_ok_spec (enc : Encoder) (m : List (String × Nat)) :
    ∀ (rs : List CodeRelocation) (rela rela1 : Section),
    relocLoop enc m rela rs = .ok rela1 →
    ∃ entries : List Bytes,
      rela1.content = rela.content ++ entries.flatten ∧
      rela1.header.content_size =
        rela.header.content_size + (entries.map List.length).sum ∧
      rela1.header.entry_size = rela.header.entry_size ∧
      rela1.header.content_type = rela.header.content_type ∧
      rela1.index = rela.index ∧
      List.Forall₂ (fun (r : CodeRelocation) (entry : Bytes) =>
        ∃ idx, dictLookup m r.symbol = some idx ∧
          entry = enc.uint64 r.offset ++
            enc.uint64 ((idx <<< 32) ||| 2) ++
            enc.uint64 (((-4 : Int) % (2 ^ 64 : Int)).toNat) ∧
          entry.length = 24) rs entries := by
  intro rs
  induction rs with
  | nil =>
    intro rela rela1 h
    rw [relocLoop] at h
    injection h with h
    subst h
    exact ⟨[], by simp, by simp, rfl, rfl, rfl, List.Forall₂.nil⟩
  | cons r rest ih =>
    intro rela rela1 h
    rw [relocLoop] at h
    cases hl : dictLookup m r.symbol with
    | none => rw [hl] at h; cases h
    | some idx =>
      rw [hl] at h
      obtain ⟨entries, h1, h2, h3, h4, h5, h6⟩ := ih _ _ h
      refine ⟨(enc.uint64 r.offset ++ enc.uint64 ((idx <<< 32) ||| 2) ++
        enc.uint64 (((-4 : Int) % (2 ^ 64 : Int)).toNat)) :: entries,
        ?_, ?_, ?_, ?_, ?_, ?_⟩
      · rw [h1]
        simp [List.append_assoc]
      · rw [h2]
        simp only [List.map_cons, List.sum_cons]
        omega
      · rw [h3]
      · rw [h4]
      · rw [h5]
      · refine List.Forall₂.cons ⟨idx, hl, rfl, ?_⟩ h6
        simp [Encoder.uint64_length]

/-- Reading an index that hits an element is unaffected by appending. -/
lemma getElem_append_of_some {α : Type} {l t : List α} {i : Nat} {a : α}
    (h : l[i]? = some a) : (l ++ t)[i]? = some a := by
  have hlt : i < l.length := by
    by_contra hge
    push_neg at hge
    rw [List.getElem?_eq_none hge] at h
    cases h
  rw [List.getElem?_append_left hlt]
  exact h

/-- Byte-level content of a successful relocation step with at least
one relocation: the resulting `.rela.text` section's content is the
previous content (empty when the section was freshly bound) followed by
the encoded entries, one per relocation in order. -/
lemma elfRelaStep_ok_content (w : ELFWriterState) (img2 : ELFImage)
    (sm : List (String × Nat)) (relocs : List CodeRelocation)
    (p : ELFImage × Option Section)
    (h : elfRelaStep w img2 sm relocs = .ok p) (hne : relocs ≠ []) :
    ∃ rela1 entries, p.2 = some rela1 ∧
      rela1.content = (match w.text_rela_section with
        | some s0 => s0.content
        | none => []) ++ entries.flatten ∧
      List.Forall₂ (fun (r : CodeRelocation) (entry : Bytes) =>
        ∃ idx, dictLookup sm r.symbol = some idx ∧
          entry = (Encoder.mk w.abi.endianness w.abi.elf_bitness).uint64
              r.offset ++
            (Encoder.mk w.abi.endianness w.abi.elf_bitness).uint64
              ((idx <<< 32) ||| 2) ++
            (Encoder.mk w.abi.endianness w.abi.elf_bitness).uint64
              (((-4 : Int) % (2 ^ 64 : Int)).toNat) ∧
          entry.length = 24) relocs entries := by
  rw [elfRelaStep, if_neg (by simp [List.isEmpty_iff, hne])] at h
  dsimp only at h
  cases hts : w.text_rela_section with
  | some s0 =>
    rw [hts] at h
    dsimp only at h
    split at h
    · cases h
    next rela1 heqloop =>
      injection h with h
      subst h
      obtain ⟨entries, h1, -, -, -, -, h6⟩ :=
        relocLoop_ok_spec _ _ _ _ _ heqloop
      exact ⟨rela1, entries, rfl, h1, h6⟩
  | none =>
    rw [hts] at h
    dsimp only at h
    split at h
    · cases h
    next rela1 heqloop =>
      injection h with h
      subst h
      obtain ⟨entries, h1, -, -, -, -, h6⟩ :=
        relocLoop_ok_spec _ _ _ _ _ heqloop
      exact ⟨rela1, entries, rfl, h1, h6⟩

/-- Where a successful constant-symbol step's map sends a name: to the
symbol-table index — at or past the initial table length, i.e. a symbol
added by this very call — of a Local/DataObject symbol whose interned
name is that name, which names one of this call's constant symbols. -/
lemma elfConstStep_ok_lookup_spec (rodata1 : Option Section) (fro : Nat)
    (syms : List EncodedConstSymbol) (img1 : ELFImage)
    (p : ELFImage × List (String × Nat))
    (h : elfConstStep rodata1 fro syms img1 = .ok p)
    (name : String) (idx : Nat) (hl : dictLookup p.2 name = some idx) :
    img1.symtab.length ≤ idx ∧
    ∃ sym, p.1.symtab[idx]? = some sym ∧
      sym.binding = .Local ∧ sym.type = .DataObject ∧
      p.1.strtab[sym.name_index]? = some name ∧
      ∃ s ∈ syms, s.name = name := by
  rw [elfConstStep.eq_def] at h
  split at h
  · injection h with h
    subst h
    simp [dictLookup] at hl
  · split at h
    · cases h
    · injection h with h
      subst h
      rcases constSymbolLoop_lookup_spec _ _ _ _ _ _ _ hl with
        hm | ⟨hle, s1, hs1, hname, ni, hsy, hst⟩
      · simp [dictLookup] at hm
      · rw [hname] at hst
        exact ⟨hle, _, hsy, rfl, rfl, hst, s1, hs1, hname⟩

/-- C3: in every `add_function` call that carries relocations, the
emitted `.rela.text` entries — appended in order after the previous
content — each encode the relocation offset, then
`info = (symbol_index << 32) | 2` (R_X86_64_PC32), then the addend −4
(as its 64-bit two's-complement value), where `symbol_index` is the
symbol-table index — newly assigned during this same call — of the
Local/DataObject constant symbol whose interned name is the
relocation's symbol name, that name being one of this call's constant
symbols. -/
theorem claim_C3 (w : ELFWriterState) (f : Func) (w1 : ELFWriterState)
    (h : w.add_function f = .ok w1)
    (hne : f.encoded.code_relocations ≠ []) :
    ∃ rela entries,
      w1.text_rela_section = some rela ∧
      rela.content = (match w.text_rela_section with
        | some s0 => s0.content
        | none => []) ++ entries.flatten ∧
      List.Forall₂ (fun (r : CodeRelocation) (entry : Bytes) =>
        ∃ idx,
          entry = (Encoder.mk w.abi.endianness w.abi.elf_bitness).uint64
              r.offset ++
            (Encoder.mk w.abi.endianness w.abi.elf_bitness).uint64
              ((idx <<< 32) ||| 2) ++
            (Encoder.mk w.abi.endianness w.abi.elf_bitness).uint64
              (((-4 : Int) % (2 ^ 64 : Int)).toNat) ∧
          w.image.symtab.length ≤ idx ∧
          ∃ sym, w1.image.symtab[idx]? = some sym ∧
            sym.binding = .Local ∧ sym.type = .DataObject ∧
            w1.image.strtab[sym.name_index]? = some r.symbol ∧
            ∃ s ∈ f.encoded.const_symbols, s.name = r.symbol)
        f.encoded.code_relocations entries := by
  have hb : f.is_abifunction = true :=
    (elf_add_function_ok_destruct w f w1 h).1
  simp only [ELFWriterState.add_function, hb, Bool.not_true,
    Bool.false_eq_true, if_false] at h
  split at h
  · cases h
  next img2 sm heq =>
    split at h
    · cases h
    next img4 rela2 heq2 =>
      injection h with h
      obtain ⟨hr1, hr2, -, -, -⟩ := elfRelaStep_ok_spec _ _ _ _ _ heq2
      simp only at hr1 hr2
      obtain ⟨rela1, entries, hp2, hcontent, hforall⟩ :=
        elfRelaStep_ok_content w img2 sm _ _ heq2 hne
      simp only at hp2
      refine ⟨rela1, entries, ?_, hcontent, ?_⟩
      · rw [← h]
        exact hp2
      · refine List.Forall₂.imp ?_ hforall
        rintro r entry ⟨idx, hlk, hentry, -⟩
        obtain ⟨hle, sym, hsym, hbind, htype, hstr, s1, hs1, hname⟩ :=
          elfConstStep_ok_lookup_spec _ _ _ _ _ heq r.symbol idx hlk
        simp only at hsym hstr hle
        refine ⟨idx, hentry, ?_, sym, ?_, hbind, htype, ?_, s1, hs1, hname⟩
        · rw [← (elfRodataStep_spec w f.encoded.const_content).1]
          exact hle
        · rw [← h]
          show (((img4.strtab_add f.name).1.symtab_add _).1).symtab[idx]?
            = some sym
          simp only [ELFImage.symtab_add, ELFImage.strtab_add]
          exact getElem_append_of_some (by rw [hr1]; exact hsym)
        · rw [← h]
          show (((img4.strtab_add f.name).1.symtab_add _).1).strtab[
            sym.name_index]? = some r.symbol
          simp only [ELFImage.symtab_add, ELFImage.strtab_add]
          exact getElem_append_of_some (by rw [hr2]; exact hstr)

/-- C3 witness: a concrete call with one constant and one relocation
yields exactly that entry shape. -/
theorem claim_C3_witness :
    ∃ w1, (ELFWriter.init abi64 2 3 0).add_function sampleF2 = .ok w1 ∧
      ∃ rela entries,
        w1.text_rela_section = some rela ∧
        rela.content = (match (ELFWriter.init abi64 2 3 0).text_rela_section
          with
          | some s0 => s0.content
          | none => []) ++ entries.flatten ∧
        List.Forall₂ (fun (r : CodeRelocation) (entry : Bytes) =>
          ∃ idx,
            entry = (Encoder.mk abi64.endianness abi64.elf_bitness).uint64
                r.offset ++
              (Encoder.mk abi64.endianness abi64.elf_bitness).uint64
                ((idx <<< 32) ||| 2) ++
              (Encoder.mk abi64.endianness abi64.elf_bitness).uint64
                (((-4 : Int) % (2 ^ 64 : Int)).toNat) ∧
            (ELFWriter.init abi64 2 3 0).image.symtab.length ≤ idx ∧
            ∃ sym, w1.image.symtab[idx]? = some sym ∧
              sym.binding = .Local ∧ sym.type = .DataObject ∧
              w1.image.strtab[sym.name_index]? = some r.symbol ∧
              ∃ s ∈ sampleF2.encoded.const_symbols, s.name = r.symbol)
          sampleF2.encoded.code_relocations entries :=
  ⟨_, rfl, claim_C3 (ELFWriter.init abi64 2 3 0) sampleF2 _ rfl
    (by decide)⟩
